import Mathlib

/-!
# EveCompareFits: fit parser and fit differ

A shallow embedding of `src/main.go`.

* A Go `string` is a Lean `String`; `len(line) == 0` is `line = ""`.
* A Go `int` is a Lean `Int` kept in the 64-bit range by `wrapInt` at every
  addition and subtraction the program performs.
* A Go `map[string]int` is an association list `SlotMap`; a list stands for a
  Go map when its keys are pairwise distinct (`SlotMap.WF`).  `range` over a
  map visits the entries in the order of the list, so quantifying over all
  lists covers every iteration order the Go runtime may choose.
* Output written with `fmt.Printf` / `fmt.Println` is a list of `Out` events,
  one per call.
* `os.Exit(1)` inside the parser is the `Except.error` outcome; it carries
  the lines printed before the exit.
* A file is the list of its lines: the text between the newlines, a carriage
  return before the newline included.  The end of the list is end of input.
  `bufio.Scanner` with its default line splitter and buffer (main.go 179) is
  part of `myReadLine`: it refuses a line of `maxScanTokenSize` bytes or more
  and delivers every other line without its trailing carriage return.
* A run of `main` is a `Run`: the lines it printed and how it ended, either an
  exit status or the runtime panic of an index out of range.  The library
  function `strings.ToLower` is a parameter of `main`.
-/

namespace EveCompareFits

/-! ## Data model -/

/-- The `cargoItem` struct (main.go 41-44). -/
structure cargoItem where
  name : String
  amount : Int
deriving DecidableEq

/-- A Go `map[string]int` as an association list. -/
abbrev SlotMap := List (String × Int)

/-- The keys of a map, in iteration order. -/
def SlotMap.keys (m : SlotMap) : List String := m.map Prod.fst

/-- The lists that stand for Go maps: no key occurs twice. -/
def SlotMap.WF (m : SlotMap) : Prop := (m.map Prod.fst).Nodup

instance (m : SlotMap) : Decidable m.WF := by unfold SlotMap.WF; infer_instance

/-- The `ship` struct (main.go 51-62). -/
structure ship where
  shipName : String
  shipType : String
  lowSlots : SlotMap
  midSlots : SlotMap
  highSlots : SlotMap
  rigs : SlotMap
  drones : SlotMap
  cargo : SlotMap
deriving DecidableEq

/-- One call of `fmt.Printf` / `fmt.Println` in the differ: either a whole
line of fixed text, or an entry line written by `"%10dx %s\n"`. -/
inductive Out where
  | line (text : String)
  | entry (qty : Int) (name : String)
deriving DecidableEq

/-! ## Machine integers -/

/-- Largest value of a 64-bit Go `int`. -/
def maxInt : Int := 9223372036854775807

/-- Smallest value of a 64-bit Go `int`. -/
def minInt : Int := -9223372036854775808

/-- Two's-complement wrap-around of a 64-bit Go `int`. -/
def wrapInt (x : Int) : Int :=
  (x + 9223372036854775808) % 18446744073709551616 - 9223372036854775808

/-! ## Map primitives -/

/-- The Go expression `mymap[key]`: the stored value, or 0 for a missing key. -/
def index (mymap : SlotMap) (key : String) : Int :=
  match mymap with
  | [] => 0
  | (k, v) :: rest => if k = key then v else index rest key

/-- Source `doesKeyExist` (main.go 67-73). -/
def doesKeyExist (mymap : SlotMap) (key : String) : Bool :=
  match mymap with
  | [] => false
  | (k, _) :: rest => if k = key then true else doesKeyExist rest key

/-- The Go assignment `mymap[name] = val`: overwrite the entry of an existing
key in place, otherwise add a new entry. -/
def assign (mymap : SlotMap) (name : String) (val : Int) : SlotMap :=
  match mymap with
  | [] => [(name, val)]
  | (k, v) :: rest => if k = name then (k, val) :: rest else (k, v) :: assign rest name val

/-- Source `updateMap` (main.go 76-82). -/
def updateMap (mymap : SlotMap) (name : String) (num : Int) : SlotMap :=
  if doesKeyExist mymap name then
    assign mymap name (wrapInt (index mymap name + num))
  else
    assign mymap name num

/-! ## Cargo item grammar -/

/-- The character class `\d` of Go regular expressions: ASCII digits only. -/
def isDigitChar (c : Char) : Bool := decide (48 ≤ c.toNat ∧ c.toNat ≤ 57)

/-- The class `.` of Go regular expressions: any character but a newline. -/
def isDotChar (c : Char) : Bool := decide (c ≠ '\n')

/-- Value of a string of ASCII digits read left to right from `acc`. -/
def digitsValue (acc : Nat) : List Char → Nat
  | [] => acc
  | c :: cs => digitsValue (acc * 10 + (c.toNat - 48)) cs

/-- Library `strconv.Atoi` on a non-empty string of ASCII digits, keeping the
value and dropping the error as the caller does: the number when it fits a
64-bit `int`, otherwise the largest `int` (the value returned with
`ErrRange`). -/
def atoi (digits : List Char) : Int :=
  if (digitsValue 0 digits : Int) ≤ maxInt then (digitsValue 0 digits : Int) else maxInt

/-- Does the rest of the line after group 1 match ` x(\d+)$`?  Returns the
digits of group 2. -/
def matchSuffix (rest : List Char) : Option (List Char) :=
  match rest with
  | ' ' :: 'x' :: d :: ds => if (d :: ds).all isDigitChar then some (d :: ds) else none
  | _ => none

/-- Try group 1 = the first `i` characters, for `i = n, n-1, ..., 1`: the
greedy `(.+)` of `^(.+) x(\d+)$` gives up characters one at a time. -/
def matchCargoFrom (cs : List Char) : Nat → Option (List Char × List Char)
  | 0 => none
  | i + 1 =>
    if (cs.take (i + 1)).all isDotChar then
      match matchSuffix (cs.drop (i + 1)) with
      | some ds => some (cs.take (i + 1), ds)
      | none => matchCargoFrom cs i
    else matchCargoFrom cs i

/-- The submatches of the regular expression `^(.+) x(\d+)$` on a line: the
pattern is anchored at both ends, so `FindAllStringSubmatch` returns either
no match or exactly one. -/
def cargoRegexp (line : String) : Option (List Char × List Char) :=
  matchCargoFrom line.data line.data.length

/-- Source `parseCargoItem` (main.go 86-105). -/
def parseCargoItem (line : String) : cargoItem :=
  match cargoRegexp line with
  | none => { name := line, amount := 1 }
  | some (g1, g2) => { name := String.mk g1, amount := atoi g2 }

/-! ## Parser -/

/-- Library constant `bufio.MaxScanTokenSize`: the largest buffer of a scanner
made by `bufio.NewScanner`.  A line must fit it together with its newline. -/
def maxScanTokenSize : Nat := 65536

/-- Library `bufio` helper `dropCR`: the line without its trailing carriage
return, if it has one. -/
def dropCR (data : String) : String :=
  if data.data.getLast? = some '\r' then String.mk data.data.dropLast else data

/-- Source `myReadLine` (main.go 108-116) on the lines still to be scanned.
`s.Scan()` is false at end of input and on a line of `maxScanTokenSize` bytes
or more (the scanner's "token too long"); then the function prints its line
and returns `false`.  Otherwise `s.Text()` is the next line without its
trailing carriage return. -/
def myReadLine (s : List String) : Except (List String) (String × List String) :=
  match s with
  | [] => .error ["ERROR myReadLine false"]
  | raw :: rest =>
    if maxScanTokenSize ≤ raw.utf8ByteSize then .error ["ERROR myReadLine false"]
    else .ok (dropCR raw, rest)

/-- One attempt of the pattern `\[([^,]+), ([^\]]+)\]` at the head of `cs`.
Group 1 cannot hold a comma and is followed by one, so it runs to the first
comma; group 2 likewise runs to the first closing bracket. -/
def matchHeaderAt (cs : List Char) : Option (List Char × List Char) :=
  match cs with
  | '[' :: t =>
    match t.dropWhile (fun c => decide (c ≠ ',')) with
    | ',' :: ' ' :: u =>
      match u.dropWhile (fun c => decide (c ≠ ']')) with
      | ']' :: _ =>
        if t.takeWhile (fun c => decide (c ≠ ',')) ≠ [] ∧
            u.takeWhile (fun c => decide (c ≠ ']')) ≠ [] then
          some (t.takeWhile (fun c => decide (c ≠ ',')), u.takeWhile (fun c => decide (c ≠ ']')))
        else none
      | _ => none
    | _ => none
  | _ => none

/-- All successive non-overlapping leftmost matches of the header pattern, as
`FindAllStringSubmatch(line, -1)` returns them.  `skip` counts the characters
of the previous match that are still to be passed over. -/
def headerMatches (skip : Nat) : List Char → List (List Char × List Char)
  | [] => []
  | c :: t =>
    match skip with
    | s + 1 => headerMatches s t
    | 0 =>
      match matchHeaderAt (c :: t) with
      | some (g1, g2) => (g1, g2) :: headerMatches (g1.length + g2.length + 3) t
      | none => headerMatches 0 t

/-- Source `parseShipTypeAndName` (main.go 143-156): the pair
`(shipType, shipName)`, or the line printed before `os.Exit(1)`. -/
def parseShipTypeAndName (line : String) : Except (List String) (String × String) :=
  match headerMatches 0 line.data with
  | [(g1, g2)] => .ok (String.mk g1, String.mk g2)
  | res => .error ["Could not parse ShipType and ShipName " ++ toString res.length]

/-- The loop that fills one equipped-slot map (main.go 195-206, and with
another map and message 209-220, 223-234, 237-248), with `myReadLine`
unfolded: every non-empty line counts once, the first empty line ends the
section, and a `false` from `myReadLine` (end of input, or a line the scanner
refuses) prints the two error lines and exits. -/
def readSlots (msg : String) : List String → SlotMap → Except (List String) (SlotMap × List String)
  | [], _ => .error ["ERROR myReadLine false", msg]
  | raw :: rest, slots =>
    if maxScanTokenSize ≤ raw.utf8ByteSize then .error ["ERROR myReadLine false", msg]
    else if (dropCR raw).length = 0 then .ok (slots, rest)
    else readSlots msg rest (updateMap slots (dropCR raw) 1)

/-- The loop that fills the drone map (main.go 264-276) and the cargo map
(main.go 279-291), with `myReadLine` unfolded: every non-empty line goes
through `parseCargoItem`. -/
def readCargoSlots (msg : String) : List String → SlotMap → Except (List String) (SlotMap × List String)
  | [], _ => .error ["ERROR myReadLine false", msg]
  | raw :: rest, slots =>
    if maxScanTokenSize ≤ raw.utf8ByteSize then .error ["ERROR myReadLine false", msg]
    else if (dropCR raw).length = 0 then .ok (slots, rest)
    else readCargoSlots msg rest
      (updateMap slots (parseCargoItem (dropCR raw)).name (parseCargoItem (dropCR raw)).amount)

/-- The loop `for _ = range 2` that reads the blank lines (main.go 251-261),
with the number of lines still to read. -/
def readBlankLines : Nat → List String → Except (List String) (List String)
  | 0, s => .ok s
  | n + 1, s =>
    match myReadLine s with
    | .error printed => .error (printed ++ ["Error Reading Drones"])
    | .ok (line, rest) =>
      if line.length ≠ 0 then .error ["Error Reading Drones"]
      else readBlankLines n rest

/-- Source `readInFit` (main.go 159-294) on the lines of the opened file: the
parsed ship, or the lines printed before `os.Exit(1)`. -/
def readInFit (lines : List String) : Except (List String) ship :=
  match myReadLine lines with
  | .error printed => .error (printed ++ ["LINE ", "Error Reading Ship Type and Name"])
  | .ok (line, s0) =>
    match parseShipTypeAndName line with
    | .error printed => .error printed
    | .ok (shipType, shipName) =>
      match readSlots "Error Reading Low Slots" s0 [] with
      | .error printed => .error printed
      | .ok (lowSlots, s1) =>
        match readSlots "Error Reading Mid Slots" s1 [] with
        | .error printed => .error printed
        | .ok (midSlots, s2) =>
          match readSlots "Error Reading High Slots" s2 [] with
          | .error printed => .error printed
          | .ok (highSlots, s3) =>
            match readSlots "Error Reading Rigs" s3 [] with
            | .error printed => .error printed
            | .ok (rigs, s4) =>
              match readBlankLines 2 s4 with
              | .error printed => .error printed
              | .ok s5 =>
                match readCargoSlots "Error Reading Drones" s5 [] with
                | .error printed => .error printed
                | .ok (drones, s6) =>
                  match readCargoSlots "Error Reading Cargo" s6 [] with
                  | .error printed => .error printed
                  | .ok (cargo, _) =>
                    .ok { shipName := shipName, shipType := shipType,
                          lowSlots := lowSlots, midSlots := midSlots,
                          highSlots := highSlots, rigs := rigs,
                          drones := drones, cargo := cargo }

/-! ## Differ -/

/-- The loop body of `compareSlotsRemoval` over the entries still to visit,
with the current value of `bFlag`. -/
def removalLoop (ship1 ship2 : SlotMap) (label : String) : SlotMap → Bool → List Out
  | [], _ => []
  | (k, v) :: rest, bFlag =>
    if !doesKeyExist ship2 k then
      (if !bFlag then [Out.line ("Remove from " ++ label)] else []) ++
        Out.entry v k :: removalLoop ship1 ship2 label rest true
    else
      let x := wrapInt (index ship1 k - index ship2 k)
      if x > 0 then
        (if !bFlag then [Out.line ("Remove from " ++ label)] else []) ++
          Out.entry x k :: removalLoop ship1 ship2 label rest true
      else removalLoop ship1 ship2 label rest bFlag

/-- Source `compareSlotsRemoval` (main.go 297-319). -/
def compareSlotsRemoval (ship1 ship2 : SlotMap) (label : String) : List Out :=
  removalLoop ship1 ship2 label ship1 false

/-- The loop body of `compareSlotsAdditions` over the entries still to visit,
with the current value of `bFlag`. -/
def additionsLoop (ship1 ship2 : SlotMap) (label : String) : SlotMap → Bool → List Out
  | [], _ => []
  | (k, v) :: rest, bFlag =>
    if !doesKeyExist ship1 k then
      (if !bFlag then [Out.line ("Add To " ++ label)] else []) ++
        Out.entry v k :: additionsLoop ship1 ship2 label rest true
    else
      let x := wrapInt (index ship2 k - index ship1 k)
      if x > 0 then
        (if !bFlag then [Out.line ("Add To " ++ label)] else []) ++
          Out.entry x k :: additionsLoop ship1 ship2 label rest true
      else additionsLoop ship1 ship2 label rest bFlag

/-- Source `compareSlotsAdditions` (main.go 322-344). -/
def compareSlotsAdditions (ship1 ship2 : SlotMap) (label : String) : List Out :=
  additionsLoop ship1 ship2 label ship2 false

/-- The text printed when the ship types differ (main.go 351). -/
def mismatchMessage : String := "Ships are not of the same time, no comparison given."

/-- Source `compareTwoShips` (main.go 347-371). -/
def compareTwoShips (ship1 ship2 : ship) : List Out :=
  if ship1.shipType ≠ ship2.shipType then
    [Out.line mismatchMessage]
  else
    compareSlotsRemoval ship1.lowSlots ship2.lowSlots "Low Slots" ++
    compareSlotsRemoval ship1.midSlots ship2.midSlots "Mid Slots" ++
    compareSlotsRemoval ship1.highSlots ship2.highSlots "High Slots" ++
    compareSlotsRemoval ship1.rigs ship2.rigs "Rigs" ++
    compareSlotsRemoval ship1.drones ship2.drones "Drones" ++
    compareSlotsRemoval ship1.cargo ship2.cargo "Cargo" ++
    compareSlotsAdditions ship1.lowSlots ship2.lowSlots "Low Slots" ++
    compareSlotsAdditions ship1.midSlots ship2.midSlots "Mid Slots" ++
    compareSlotsAdditions ship1.highSlots ship2.highSlots "High Slots" ++
    compareSlotsAdditions ship1.rigs ship2.rigs "Rigs" ++
    compareSlotsAdditions ship1.drones ship2.drones "Drones" ++
    compareSlotsAdditions ship1.cargo ship2.cargo "Cargo"

/-! ## Observations on the output -/

/-- The entry lines of an output, as (quantity, item name) pairs in order. -/
def entriesOf : List Out → List (Int × String)
  | [] => []
  | Out.entry q n :: rest => (q, n) :: entriesOf rest
  | Out.line _ :: rest => entriesOf rest

/-- The quantity a list of entries gives for an item name, 0 if it is not
listed. -/
def qtyOf : List (Int × String) → String → Int
  | [], _ => 0
  | (q, n) :: rest, k => if n = k then q else qtyOf rest k

/-- The quantity an output lists for an item name, 0 if it is not listed. -/
def listedQty (out : List Out) (k : String) : Int := qtyOf (entriesOf out) k

/-- The entry the removal loop writes for one map entry, if any. -/
def removalEntry (ship1 ship2 : SlotMap) (e : String × Int) : Option (Int × String) :=
  if doesKeyExist ship2 e.1 then
    if 0 < wrapInt (index ship1 e.1 - index ship2 e.1) then
      some (wrapInt (index ship1 e.1 - index ship2 e.1), e.1)
    else none
  else some (e.2, e.1)

/-- Replace the removal heading of a category by its addition heading. -/
def toAddHeading (label : String) (o : Out) : Out :=
  match o with
  | Out.line _ => Out.line ("Add To " ++ label)
  | Out.entry q n => Out.entry q n

/-! ## Sections of the input, as the spec describes them -/

/-- The lines as the scanner delivers them: each without its trailing
carriage return. -/
def delivered (lines : List String) : List String := lines.map dropCR

/-- A non-empty line of 65536 bytes: the letter a, 65536 times. -/
def longLine : String := String.mk (List.replicate 65536 'a')

/-- A line that the scanner accepts: fewer than `maxScanTokenSize` bytes. -/
def scannable (raw : String) : Prop := raw.utf8ByteSize < maxScanTokenSize

instance (raw : String) : Decidable (scannable raw) := by unfold scannable; infer_instance

/-- An item line: a line that the scanner accepts (fewer than
`maxScanTokenSize` bytes) and delivers non-empty. -/
def itemLine (raw : String) : Prop :=
  raw.utf8ByteSize < maxScanTokenSize ∧ dropCR raw ≠ ""

instance (raw : String) : Decidable (itemLine raw) := by unfold itemLine; infer_instance

/-- The item lines of the section that starts at `s`: the lines before the
first empty one. -/
def sectionLines (s : List String) : List String :=
  s.takeWhile (fun l => decide (l ≠ ""))

/-- The input that follows the section starting at `s`: what comes after its
terminating empty line. -/
def afterSection (s : List String) : List String :=
  (s.dropWhile (fun l => decide (l ≠ ""))).drop 1

/-- Additive insert of a list of (name, amount) items into a map. -/
def accumulate (items : List (String × Int)) (m : SlotMap) : SlotMap :=
  items.foldl (fun acc it => updateMap acc it.1 it.2) m

/-- The items of an equipped-slot block: each line, once. -/
def slotItems (block : List String) : List (String × Int) :=
  block.map (fun l => (l, 1))

/-- The items of a drone or cargo block: each line through the cargo item
grammar. -/
def cargoItems (block : List String) : List (String × Int) :=
  block.map (fun l => ((parseCargoItem l).name, (parseCargoItem l).amount))

/-- The input after the header line and the four equipped-slot sections. -/
def afterRigs (lines : List String) : List String :=
  afterSection (afterSection (afterSection (afterSection (lines.drop 1))))

/-- The low-slot block of an input, given as its delivered lines. -/
def lowBlock (lines : List String) : List String := sectionLines (lines.drop 1)

/-- The mid-slot block of an input, given as its delivered lines. -/
def midBlock (lines : List String) : List String :=
  sectionLines (afterSection (lines.drop 1))

/-- The high-slot block of an input, given as its delivered lines. -/
def highBlock (lines : List String) : List String :=
  sectionLines (afterSection (afterSection (lines.drop 1)))

/-- The rig block of an input, given as its delivered lines. -/
def rigBlock (lines : List String) : List String :=
  sectionLines (afterSection (afterSection (afterSection (lines.drop 1))))

/-- The drone block of an input, given as its delivered lines: the section
after the two separator lines. -/
def droneBlock (lines : List String) : List String :=
  sectionLines ((afterRigs lines).drop 2)

/-- The cargo block of an input, given as its delivered lines: the section
after the drone section. -/
def cargoBlock (lines : List String) : List String :=
  sectionLines (afterSection ((afterRigs lines).drop 2))

/-! ## The header pattern, as the spec describes it -/

/-- The text of one bracketed pair: '[' type ', ' name ']'. -/
def headerPattern (T N : List Char) : List Char := '[' :: T ++ ',' :: ' ' :: N ++ [']']

/-- A type without a comma and a name without a closing bracket, both
non-empty. -/
def validPair (T N : List Char) : Prop := T ≠ [] ∧ ',' ∉ T ∧ N ≠ [] ∧ ']' ∉ N

/-- The bracketed pair pattern occurs somewhere in the text. -/
def headerOccurs (cs : List Char) : Prop :=
  ∃ pre T N post, validPair T N ∧ cs = pre ++ (headerPattern T N ++ post)

/-- The bracketed pair pattern occurs at two places that do not overlap. -/
def headerOccursTwice (cs : List Char) : Prop :=
  ∃ pre T1 N1 mid T2 N2 post, validPair T1 N1 ∧ validPair T2 N2 ∧
    cs = pre ++ (headerPattern T1 N1 ++ (mid ++ (headerPattern T2 N2 ++ post)))

/-! ## Well-formed inputs, as the spec describes them -/

/-- An input that is well-formed through the low-slot section: the header,
the low-slot lines, the terminating empty line, and then `tail`. -/
def throughLow (h : String) (L tail : List String) : List String :=
  h :: (L ++ "" :: tail)

/-- An input that is well-formed through the mid-slot section. -/
def throughMid (h : String) (L M tail : List String) : List String :=
  throughLow h L (M ++ "" :: tail)

/-- An input that is well-formed through the high-slot section. -/
def throughHigh (h : String) (L M H tail : List String) : List String :=
  throughMid h L M (H ++ "" :: tail)

/-- An input that is well-formed through the rig section. -/
def throughRigs (h : String) (L M H R tail : List String) : List String :=
  throughHigh h L M H (R ++ "" :: tail)

/-- An input that is well-formed through the two separator lines and the
drone section. -/
def throughDrones (h : String) (L M H R D tail : List String) : List String :=
  throughRigs h L M H R ("" :: "" :: (D ++ "" :: tail))

/-- A whole well-formed input: every section ends in an empty line. -/
def fitLines (h : String) (L M H R D C : List String) : List String :=
  throughDrones h L M H R D (C ++ [""])

/-- The total amount a list of items gives for a name. -/
def amountFor (k : String) (items : List (String × Int)) : Int :=
  ((items.filter (fun it => decide (it.1 = k))).map Prod.snd).sum

/-- The map holds exactly the distinct lines of the block, each with the
number of lines of the block equal to it. -/
def countsLines (m : SlotMap) (block : List String) : Prop :=
  m.WF ∧ (∀ k, k ∈ m.keys ↔ k ∈ block) ∧ ∀ k, index m k = (block.count k : Int)

/-- The map holds exactly the names parsed from the block, each with the sum
of the amounts of the lines of the block that parse to it. -/
def sumsAmounts (m : SlotMap) (block : List String) : Prop :=
  m.WF ∧ (∀ k, k ∈ m.keys ↔ ∃ l ∈ block, (parseCargoItem l).name = k) ∧
  ∀ k, index m k =
    ((block.filter (fun l => decide ((parseCargoItem l).name = k))).map
      (fun l => (parseCargoItem l).amount)).sum

/-! ## The command line -/

/-- How a run of the program ends: `os.Exit` with a status (a return from
`main` is status 0), or the runtime panic of an index out of range. -/
inductive Ending where
  | exit (status : Nat)
  | indexOutOfRange
deriving DecidableEq

/-- One line written by the program: a text line, a slot line written by
`"%8dx %s\n"`, or a line of the differ. -/
inductive Printed where
  | text (s : String)
  | slot (qty : Int) (name : String)
  | diff (o : Out)
deriving DecidableEq

/-- A run of the program: what it printed and how it ended. -/
structure Run where
  out : List Printed
  ending : Ending
deriving DecidableEq

/-- The version string (main.go 64). -/
def version : String := "0.1.0"

/-- Source `printSlots` (main.go 119-126). -/
def printSlots (items : SlotMap) (label : String) : List Printed :=
  [Printed.text "", Printed.text label] ++ items.map (fun e => Printed.slot e.2 e.1)

/-- Source `printShip` (main.go 129-139). -/
def printShip (thisShip : ship) : List Printed :=
  Printed.text ("Ship: " ++ thisShip.shipName ++ " Type: " ++ thisShip.shipType) ::
    (printSlots thisShip.lowSlots "Low Slots" ++
     printSlots thisShip.midSlots "Mid Slots" ++
     printSlots thisShip.highSlots "High Slots" ++
     printSlots thisShip.rigs "Rigs" ++
     printSlots thisShip.drones "Drones" ++
     printSlots thisShip.cargo "Cargo")

/-- Source `readInFit` (main.go 159-294) from the file name on: `files` gives
the lines of the files that can be opened; a file that cannot be opened
prints its message and exits. -/
def readInFitFile (files : String → Option (List String)) (fName : String) :
    Except (List String) ship :=
  match files fName with
  | none => .error ["Failed to open " ++ fName]
  | some lines => readInFit lines

/-- The loop of the `--justparse` mode (main.go 396-408) over the arguments
after the program name, with the output so far. -/
def justParse (lower : String → String) (files : String → Option (List String)) :
    List String → List Printed → Run
  | [], out => { out := out, ending := Ending.exit 0 }
  | arg :: rest, out =>
    if lower arg = "--justparse" then justParse lower files rest out
    else
      match readInFitFile files arg with
      | .error printed => { out := out ++ printed.map Printed.text, ending := Ending.exit 1 }
      | .ok s =>
        justParse lower files rest
          (out ++ [Printed.text ("Ship File " ++ arg)] ++ printShip s ++ [Printed.text ""])

/-- Source `main` (main.go 373-423) on the argument list `os.Args`.  The
library function `strings.ToLower` is the parameter `lower`. -/
def main (lower : String → String) (files : String → Option (List String))
    (args : List String) : Run :=
  if args.any (fun arg => decide (lower arg = "--version")) then
    { out := [Printed.text version], ending := Ending.exit 0 }
  else if args.any (fun arg => decide (lower arg = "--justparse")) then
    justParse lower files (args.drop 1)
      [Printed.text ("Eve Compare Fits: Version " ++ version), Printed.text ""]
  else if args.length < 2 then
    { out := [Printed.text ("Eve Compare Fits: Version " ++ version), Printed.text "",
        Printed.text "Please provide 2 Fit files for comparison."],
      ending := Ending.exit 1 }
  else
    match args.get? 1, args.get? 2 with
    | some firstFileName, some secondFileName =>
      match readInFitFile files firstFileName with
      | .error printed =>
        { out := [Printed.text ("Eve Compare Fits: Version " ++ version), Printed.text ""]
            ++ printed.map Printed.text,
          ending := Ending.exit 1 }
      | .ok ship1 =>
        match readInFitFile files secondFileName with
        | .error printed =>
          { out := [Printed.text ("Eve Compare Fits: Version " ++ version), Printed.text ""]
              ++ printed.map Printed.text,
            ending := Ending.exit 1 }
        | .ok ship2 =>
          { out := [Printed.text ("Eve Compare Fits: Version " ++ version), Printed.text ""]
              ++ (compareTwoShips ship1 ship2).map Printed.diff,
            ending := Ending.exit 0 }
    | _, _ =>
      { out := [Printed.text ("Eve Compare Fits: Version " ++ version), Printed.text ""],
        ending := Ending.indexOutOfRange }

/-- ASCII lower-casing, character by character: what `strings.ToLower` does
on ASCII text. -/
def asciiLower (s : String) : String := String.mk (s.data.map Char.toLower)

/-! ## Lemmas -/

theorem wrapInt_of_range (x : Int) (h1 : minInt ≤ x) (h2 : x ≤ maxInt) : wrapInt x = x := by
  unfold wrapInt
  unfold minInt at h1
  unfold maxInt at h2
  omega

theorem wrapInt_zero : wrapInt 0 = 0 := by decide

theorem index_of_not_exists (m : SlotMap) (k : String) (h : doesKeyExist m k = false) :
    index m k = 0 := by
  induction m with
  | nil => rfl
  | cons e rest ih =>
    obtain ⟨k1, v1⟩ := e
    by_cases hk : k1 = k
    · simp [doesKeyExist, hk] at h
    · simp [doesKeyExist, hk] at h
      simp [index, hk, ih h]

theorem index_mem (m : SlotMap) (k : String) (h : doesKeyExist m k = true) :
    (k, index m k) ∈ m := by
  induction m with
  | nil => simp [doesKeyExist] at h
  | cons e rest ih =>
    obtain ⟨k1, v1⟩ := e
    by_cases hk : k1 = k
    · subst hk
      simp [index]
    · simp [doesKeyExist, hk] at h
      simp [index, hk, ih h]

theorem doesKeyExist_iff_mem_keys (m : SlotMap) (k : String) :
    doesKeyExist m k = true ↔ k ∈ m.keys := by
  induction m with
  | nil => simp [doesKeyExist, SlotMap.keys]
  | cons e rest ih =>
    obtain ⟨k1, v1⟩ := e
    by_cases hk : k1 = k
    · simp [doesKeyExist, SlotMap.keys, hk]
    · have hk2 : ¬ k = k1 := fun h => hk h.symm
      simp only [doesKeyExist, hk, if_false, ih]
      simp [SlotMap.keys, hk2]

theorem doesKeyExist_of_mem (m : SlotMap) (e : String × Int) (h : e ∈ m) :
    doesKeyExist m e.1 = true := by
  rw [doesKeyExist_iff_mem_keys]
  exact List.mem_map_of_mem Prod.fst h

theorem entriesOf_append (xs ys : List Out) :
    entriesOf (xs ++ ys) = entriesOf xs ++ entriesOf ys := by
  induction xs with
  | nil => rfl
  | cons o rest ih =>
    cases o with
    | line t => simpa [entriesOf] using ih
    | entry q n => simpa [entriesOf] using ih

theorem entriesOf_removalLoop (A B : SlotMap) (label : String) (rest : SlotMap) (b : Bool) :
    entriesOf (removalLoop A B label rest b) = rest.filterMap (removalEntry A B) := by
  induction rest generalizing b with
  | nil => rfl
  | cons e rest ih =>
    obtain ⟨k, v⟩ := e
    cases hB : doesKeyExist B k
    · cases b <;> simp [removalLoop, removalEntry, hB, entriesOf, ih]
    · by_cases hx : 0 < wrapInt (index A k - index B k)
      · cases b <;> simp [removalLoop, removalEntry, hB, hx, entriesOf, ih]
      · simp [removalLoop, removalEntry, hB, hx, ih]

theorem entriesOf_additionsLoop (A B : SlotMap) (label : String) (rest : SlotMap) (b : Bool) :
    entriesOf (additionsLoop A B label rest b) = rest.filterMap (removalEntry B A) := by
  induction rest generalizing b with
  | nil => rfl
  | cons e rest ih =>
    obtain ⟨k, v⟩ := e
    cases hA : doesKeyExist A k
    · cases b <;> simp [additionsLoop, removalEntry, hA, entriesOf, ih]
    · by_cases hx : 0 < wrapInt (index B k - index A k)
      · cases b <;> simp [additionsLoop, removalEntry, hA, hx, entriesOf, ih]
      · simp [additionsLoop, removalEntry, hA, hx, ih]

theorem qtyOf_filterMap_removalEntry (A B rest : SlotMap) (k : String) :
    qtyOf (rest.filterMap (removalEntry A B)) k =
      if doesKeyExist rest k then
        (if doesKeyExist B k then
          (if 0 < wrapInt (index A k - index B k) then wrapInt (index A k - index B k) else 0)
         else index rest k)
      else 0 := by
  induction rest with
  | nil => simp [qtyOf, doesKeyExist]
  | cons e rest ih =>
    obtain ⟨k1, v1⟩ := e
    by_cases hk : k1 = k
    · subst hk
      cases hB : doesKeyExist B k1
      · simp [removalEntry, hB, qtyOf, doesKeyExist, index]
      · by_cases hx : 0 < wrapInt (index A k1 - index B k1)
        · simp [removalEntry, hB, hx, qtyOf, doesKeyExist]
        · simp only [List.filterMap_cons, removalEntry, hB, hx, if_true, if_false, ih]
          simp [doesKeyExist]
    · have step : qtyOf ((((k1, v1) : String × Int) :: rest).filterMap (removalEntry A B)) k =
          qtyOf (rest.filterMap (removalEntry A B)) k := by
        cases hB : doesKeyExist B k1
        · simp [removalEntry, hB, qtyOf, hk]
        · by_cases hx : 0 < wrapInt (index A k1 - index B k1)
          · simp [removalEntry, hB, hx, qtyOf, hk]
          · simp [removalEntry, hB, hx]
      rw [step, ih]
      simp [doesKeyExist, index, hk]

theorem filter_filterMap_removalEntry (A B rest : SlotMap) (k : String) (h : rest.WF) :
    (rest.filterMap (removalEntry A B)).filter (fun e => decide (e.2 = k)) =
      if doesKeyExist rest k then
        (if doesKeyExist B k then
          (if 0 < wrapInt (index A k - index B k) then
            [(wrapInt (index A k - index B k), k)] else [])
         else [(index rest k, k)])
      else [] := by
  induction rest with
  | nil => simp [doesKeyExist]
  | cons e rest ih =>
    obtain ⟨k1, v1⟩ := e
    have hnd : k1 ∉ SlotMap.keys rest ∧ SlotMap.WF rest := by
      simpa [SlotMap.WF, SlotMap.keys] using h
    have ih2 := ih hnd.2
    by_cases hk : k1 = k
    · subst hk
      have hno : doesKeyExist rest k1 = false := by
        cases hd : doesKeyExist rest k1
        · rfl
        · exact absurd ((doesKeyExist_iff_mem_keys rest k1).1 hd) hnd.1
      rw [hno] at ih2
      simp only [Bool.false_eq_true, if_false] at ih2
      cases hB : doesKeyExist B k1
      · simp [removalEntry, hB, doesKeyExist, index, ih2]
      · by_cases hx : 0 < wrapInt (index A k1 - index B k1)
        · simp [removalEntry, hB, hx, doesKeyExist, ih2]
        · simp [removalEntry, hB, hx, doesKeyExist, ih2]
    · have step : ((((k1, v1) : String × Int) :: rest).filterMap (removalEntry A B)).filter
            (fun e => decide (e.2 = k)) =
          (rest.filterMap (removalEntry A B)).filter (fun e => decide (e.2 = k)) := by
        cases hB : doesKeyExist B k1
        · simp [removalEntry, hB, hk]
        · by_cases hx : 0 < wrapInt (index A k1 - index B k1)
          · simp [removalEntry, hB, hx, hk]
          · simp [removalEntry, hB, hx]
      rw [step, ih2]
      simp [doesKeyExist, index, hk]

theorem mem_filterMap_removalEntry (A B rest : SlotMap) (q : Int) (n : String)
    (h : (q, n) ∈ rest.filterMap (removalEntry A B)) : n ∈ rest.keys := by
  rw [List.mem_filterMap] at h
  obtain ⟨e, he, hq⟩ := h
  have hn : n = e.1 := by
    unfold removalEntry at hq
    split at hq
    · split at hq
      · simp only [Option.some.injEq, Prod.mk.injEq] at hq
        exact hq.2.symm
      · simp at hq
    · simp only [Option.some.injEq, Prod.mk.injEq] at hq
      exact hq.2.symm
  rw [hn]
  exact List.mem_map_of_mem Prod.fst he

theorem removalLoop_self (A : SlotMap) (label : String) (rest : SlotMap) (b : Bool)
    (h : ∀ e ∈ rest, doesKeyExist A e.1 = true) : removalLoop A A label rest b = [] := by
  induction rest generalizing b with
  | nil => rfl
  | cons e rest ih =>
    obtain ⟨k, v⟩ := e
    have hk : doesKeyExist A k = true := h (k, v) (List.mem_cons_self _ _)
    have hr : ∀ e ∈ rest, doesKeyExist A e.1 = true :=
      fun e he => h e (List.mem_cons_of_mem _ he)
    simp [removalLoop, hk, wrapInt_zero, ih _ hr]

theorem additionsLoop_self (A : SlotMap) (label : String) (rest : SlotMap) (b : Bool)
    (h : ∀ e ∈ rest, doesKeyExist A e.1 = true) : additionsLoop A A label rest b = [] := by
  induction rest generalizing b with
  | nil => rfl
  | cons e rest ih =>
    obtain ⟨k, v⟩ := e
    have hk : doesKeyExist A k = true := h (k, v) (List.mem_cons_self _ _)
    have hr : ∀ e ∈ rest, doesKeyExist A e.1 = true :=
      fun e he => h e (List.mem_cons_of_mem _ he)
    simp [additionsLoop, hk, wrapInt_zero, ih _ hr]

theorem compareSlotsRemoval_self (A : SlotMap) (label : String) :
    compareSlotsRemoval A A label = [] :=
  removalLoop_self A label A false (fun e he => doesKeyExist_of_mem A e he)

theorem compareSlotsAdditions_self (A : SlotMap) (label : String) :
    compareSlotsAdditions A A label = [] :=
  additionsLoop_self A label A false (fun e he => doesKeyExist_of_mem A e he)

theorem additionsLoop_eq_map (A B : SlotMap) (label : String) (rest : SlotMap) (b : Bool) :
    additionsLoop A B label rest b =
      (removalLoop B A label rest b).map (toAddHeading label) := by
  induction rest generalizing b with
  | nil => rfl
  | cons e rest ih =>
    obtain ⟨k, v⟩ := e
    cases hA : doesKeyExist A k
    · cases b <;> simp [additionsLoop, removalLoop, hA, toAddHeading, ih]
    · by_cases hx : 0 < wrapInt (index B k - index A k)
      · cases b <;> simp [additionsLoop, removalLoop, hA, hx, toAddHeading, ih]
      · simp [additionsLoop, removalLoop, hA, hx, ih]

theorem mem_removalLoop (A B : SlotMap) (label : String) (rest : SlotMap) (b : Bool)
    (o : Out) (h : o ∈ removalLoop A B label rest b) :
    o = Out.line ("Remove from " ++ label) ∨ ∃ q n, o = Out.entry q n := by
  induction rest generalizing b with
  | nil => simp [removalLoop] at h
  | cons e rest ih =>
    obtain ⟨k, v⟩ := e
    cases hB : doesKeyExist B k
    · cases b
      · simp [removalLoop, hB] at h
        rcases h with h | h | h
        · exact Or.inl h
        · exact Or.inr ⟨_, _, h⟩
        · exact ih _ h
      · simp [removalLoop, hB] at h
        rcases h with h | h
        · exact Or.inr ⟨_, _, h⟩
        · exact ih _ h
    · by_cases hx : 0 < wrapInt (index A k - index B k)
      · cases b
        · simp [removalLoop, hB, hx] at h
          rcases h with h | h | h
          · exact Or.inl h
          · exact Or.inr ⟨_, _, h⟩
          · exact ih _ h
        · simp [removalLoop, hB, hx] at h
          rcases h with h | h
          · exact Or.inr ⟨_, _, h⟩
          · exact ih _ h
      · simp [removalLoop, hB, hx] at h
        exact ih _ h

theorem mem_additionsLoop (A B : SlotMap) (label : String) (rest : SlotMap) (b : Bool)
    (o : Out) (h : o ∈ additionsLoop A B label rest b) :
    o = Out.line ("Add To " ++ label) ∨ ∃ q n, o = Out.entry q n := by
  rw [additionsLoop_eq_map, List.mem_map] at h
  obtain ⟨o1, _, ho⟩ := h
  cases o1 with
  | line t => exact Or.inl ho.symm
  | entry q n => exact Or.inr ⟨q, n, ho.symm⟩

theorem index_bounds (m : SlotMap) (k : String) (h : ∀ e ∈ m, 0 ≤ e.2 ∧ e.2 ≤ maxInt) :
    0 ≤ index m k ∧ index m k ≤ maxInt := by
  cases hd : doesKeyExist m k
  · rw [index_of_not_exists m k hd]
    decide
  · exact h _ (index_mem m k hd)

/-! ## The differ: claims C1 to C6 -/

/-- C1: applying the reported diff to loadout A yields loadout B.  For maps
whose counts are non-negative machine integers and every item name k, the
count of k in A, minus the quantity the removal report lists for k, plus the
quantity the addition report lists for k, is the count of k in B. -/
theorem diff_applied_yields_target (A B : SlotMap) (label : String)
    (hA : ∀ e ∈ A, 0 ≤ e.2 ∧ e.2 ≤ maxInt) (hB : ∀ e ∈ B, 0 ≤ e.2 ∧ e.2 ≤ maxInt)
    (k : String) :
    index A k - listedQty (compareSlotsRemoval A B label) k
      + listedQty (compareSlotsAdditions A B label) k = index B k := by
  unfold listedQty compareSlotsRemoval compareSlotsAdditions
  rw [entriesOf_removalLoop, entriesOf_additionsLoop, qtyOf_filterMap_removalEntry,
    qtyOf_filterMap_removalEntry]
  have ha := index_bounds A k hA
  have hb := index_bounds B k hB
  have w1 : wrapInt (index A k - index B k) = index A k - index B k := by
    apply wrapInt_of_range <;> unfold minInt maxInt at * <;> omega
  have w2 : wrapInt (index B k - index A k) = index B k - index A k := by
    apply wrapInt_of_range <;> unfold minInt maxInt at * <;> omega
  rw [w1, w2]
  cases hdA : doesKeyExist A k <;> cases hdB : doesKeyExist B k
  · simp [index_of_not_exists A k hdA, index_of_not_exists B k hdB]
  · simp [index_of_not_exists A k hdA]
  · simp [index_of_not_exists B k hdB]
  · simp only [if_true]
    split_ifs <;> omega

/-- Witness of C1 on the loadouts of the spec's diff example. -/
theorem diff_applied_yields_target_witness :
    index [("Module X", 2)] "Module Y"
      - listedQty (compareSlotsRemoval [("Module X", 2)]
          [("Module X", 1), ("Module Y", 1)] "Low Slots") "Module Y"
      + listedQty (compareSlotsAdditions [("Module X", 2)]
          [("Module X", 1), ("Module Y", 1)] "Low Slots") "Module Y"
      = index [("Module X", 1), ("Module Y", 1)] "Module Y" :=
  diff_applied_yields_target [("Module X", 2)] [("Module X", 1), ("Module Y", 1)]
    "Low Slots" (by decide) (by decide) "Module Y"

/-- C2: the removal report of a map A against a map B.  For an item name k,
the entries listed under k are: nothing when k is not a key of A; the single
entry with quantity A[k] when k is a key of A only; and, when k is a key of
both, the single entry with quantity A[k] - B[k] (the program's integer
subtraction) when that is positive and nothing otherwise.  So no name outside
A is listed, every key is listed at most once, and for a key of both maps the
listed quantity is max(0, A[k] - B[k]). -/
theorem compareSlotsRemoval_entries (A B : SlotMap) (label : String) (hA : A.WF)
    (k : String) :
    ((entriesOf (compareSlotsRemoval A B label)).filter (fun e => decide (e.2 = k)) =
      if k ∈ A.keys then
        (if k ∈ B.keys then
          (if 0 < wrapInt (index A k - index B k) then
            [(wrapInt (index A k - index B k), k)] else [])
         else [(index A k, k)])
      else []) ∧
    (∀ q n, (q, n) ∈ entriesOf (compareSlotsRemoval A B label) → n ∈ A.keys) ∧
    ((entriesOf (compareSlotsRemoval A B label)).filter
        (fun e => decide (e.2 = k))).length ≤ 1 ∧
    (k ∈ A.keys → k ∈ B.keys →
      listedQty (compareSlotsRemoval A B label) k =
        max 0 (wrapInt (index A k - index B k))) ∧
    (minInt ≤ index A k - index B k → index A k - index B k ≤ maxInt →
      wrapInt (index A k - index B k) = index A k - index B k) := by
  have key := filter_filterMap_removalEntry A B A k hA
  have e1 : (doesKeyExist A k = true) = (k ∈ A.keys) :=
    propext (doesKeyExist_iff_mem_keys A k)
  have e2 : (doesKeyExist B k = true) = (k ∈ B.keys) :=
    propext (doesKeyExist_iff_mem_keys B k)
  unfold compareSlotsRemoval listedQty
  rw [entriesOf_removalLoop]
  refine ⟨?_, ?_, ?_, ?_, ?_⟩
  · rw [key]
    simp only [e1, e2]
  · intro q n h
    exact mem_filterMap_removalEntry A B A q n h
  · rw [key]
    split_ifs <;> simp
  · intro h1 h2
    rw [qtyOf_filterMap_removalEntry]
    rw [← e1] at h1
    rw [← e2] at h2
    simp only [h1, h2, if_true]
    split_ifs with hx
    · exact (max_eq_right (le_of_lt hx)).symm
    · exact (max_eq_left (not_lt.1 hx)).symm
  · intro h1 h2
    exact wrapInt_of_range _ h1 h2

/-- Witness of C2 on the loadouts of the spec's diff example. -/
theorem compareSlotsRemoval_entries_witness :
    (entriesOf (compareSlotsRemoval [("Module X", 2)]
        [("Module X", 1), ("Module Y", 1)] "Low Slots")).filter
      (fun e => decide (e.2 = "Module X")) = [(1, "Module X")] :=
  (compareSlotsRemoval_entries [("Module X", 2)] [("Module X", 1), ("Module Y", 1)]
    "Low Slots" (by decide) "Module X").1.trans (by decide)

/-- C3: the differ on two parsed fits whose only difference is the drone line
"Foo x0" of the first: the removal report for the drones lists "Foo" with
quantity 0. -/
theorem zero_quantity_entry_emitted :
    (readInFit ["[Raven, A]", "", "", "", "", "", "", "Foo x0", "", ""]).toOption.bind
      (fun s1 =>
        (readInFit ["[Raven, B]", "", "", "", "", "", "", "", ""]).toOption.map
          (fun s2 => (s1.drones, s2.drones, compareTwoShips s1 s2)))
      = some ([("Foo", 0)], [], [Out.line "Remove from Drones", Out.entry 0 "Foo"]) := by
  decide

/-- C4: comparing a loadout with itself reports nothing: the output of
`compareTwoShips s s` is empty, so it holds no heading and no entry of any of
the six categories. -/
theorem compareTwoShips_self (s : ship) : compareTwoShips s s = [] := by
  simp [compareTwoShips, compareSlotsRemoval_self, compareSlotsAdditions_self]

/-- C5: additions are removals with the two loadouts swapped.  The output of
`compareSlotsAdditions A B label` is the output of
`compareSlotsRemoval B A label` with the heading "Remove from label" replaced
by "Add To label"; the two list the same entries, and one has its heading
exactly when the other has. -/
theorem compareSlotsAdditions_eq_swapped_removal (A B : SlotMap) (label : String) :
    compareSlotsAdditions A B label =
        (compareSlotsRemoval B A label).map (toAddHeading label) ∧
    entriesOf (compareSlotsAdditions A B label) =
        entriesOf (compareSlotsRemoval B A label) ∧
    (Out.line ("Add To " ++ label) ∈ compareSlotsAdditions A B label ↔
      Out.line ("Remove from " ++ label) ∈ compareSlotsRemoval B A label) := by
  have hmap : compareSlotsAdditions A B label =
      (compareSlotsRemoval B A label).map (toAddHeading label) :=
    additionsLoop_eq_map A B label B false
  refine ⟨hmap, ?_, ?_⟩
  · unfold compareSlotsAdditions compareSlotsRemoval
    rw [entriesOf_additionsLoop, entriesOf_removalLoop]
  · constructor
    · intro h
      rw [hmap, List.mem_map] at h
      obtain ⟨o, ho, heq⟩ := h
      rcases mem_removalLoop B A label B false o ho with h1 | ⟨q, n, h1⟩
      · rw [← h1]
        exact ho
      · rw [h1] at heq
        simp [toAddHeading] at heq
    · intro h
      rw [hmap, List.mem_map]
      exact ⟨_, h, rfl⟩

theorem mismatch_not_in_removal (A B : SlotMap) (label : String)
    (hl : "Remove from " ++ label ≠ mismatchMessage) :
    Out.line mismatchMessage ∉ compareSlotsRemoval A B label := by
  intro h
  rcases mem_removalLoop A B label A false _ h with h1 | ⟨q, n, h1⟩
  · exact hl (Out.line.inj h1).symm
  · exact Out.noConfusion h1

theorem mismatch_not_in_additions (A B : SlotMap) (label : String)
    (hl : "Add To " ++ label ≠ mismatchMessage) :
    Out.line mismatchMessage ∉ compareSlotsAdditions A B label := by
  intro h
  rcases mem_additionsLoop A B label B false _ h with h1 | ⟨q, n, h1⟩
  · exact hl (Out.line.inj h1).symm
  · exact Out.noConfusion h1

/-- C6: a ship-type mismatch aborts the comparison without partial output.
When the two shipType strings differ the whole output of `compareTwoShips` is
the single mismatch message (no heading, no entry; the function has no exit
path, it returns this output); when they are equal the mismatch message is not
part of the output. -/
theorem compareTwoShips_mismatch (s1 s2 : ship) :
    (s1.shipType ≠ s2.shipType → compareTwoShips s1 s2 = [Out.line mismatchMessage]) ∧
    (s1.shipType = s2.shipType → Out.line mismatchMessage ∉ compareTwoShips s1 s2) := by
  constructor
  · intro h
    simp [compareTwoShips, h]
  · intro h hmem
    simp only [compareTwoShips, h, ne_eq, not_true_eq_false, if_false, List.mem_append] at hmem
    rcases hmem with (((((((((((h1 | h1) | h1) | h1) | h1) | h1) | h1) | h1) | h1) | h1) | h1) | h1)
    · exact mismatch_not_in_removal _ _ _ (by decide) h1
    · exact mismatch_not_in_removal _ _ _ (by decide) h1
    · exact mismatch_not_in_removal _ _ _ (by decide) h1
    · exact mismatch_not_in_removal _ _ _ (by decide) h1
    · exact mismatch_not_in_removal _ _ _ (by decide) h1
    · exact mismatch_not_in_removal _ _ _ (by decide) h1
    · exact mismatch_not_in_additions _ _ _ (by decide) h1
    · exact mismatch_not_in_additions _ _ _ (by decide) h1
    · exact mismatch_not_in_additions _ _ _ (by decide) h1
    · exact mismatch_not_in_additions _ _ _ (by decide) h1
    · exact mismatch_not_in_additions _ _ _ (by decide) h1
    · exact mismatch_not_in_additions _ _ _ (by decide) h1

/-- Witness of C6: a Raven against a Scorpion gives only the mismatch message,
and a Raven against a Raven with another low slot does not give it. -/
theorem compareTwoShips_mismatch_witness :
    compareTwoShips ⟨"a", "Raven", [("Module X", 2)], [], [], [], [], []⟩
        ⟨"b", "Scorpion", [], [], [], [], [], []⟩ = [Out.line mismatchMessage] ∧
    Out.line mismatchMessage ∉
      compareTwoShips ⟨"a", "Raven", [("Module X", 2)], [], [], [], [], []⟩
        ⟨"b", "Raven", [], [], [], [], [], []⟩ :=
  ⟨(compareTwoShips_mismatch ⟨"a", "Raven", [("Module X", 2)], [], [], [], [], []⟩
      ⟨"b", "Scorpion", [], [], [], [], [], []⟩).1 (by decide),
   (compareTwoShips_mismatch ⟨"a", "Raven", [("Module X", 2)], [], [], [], [], []⟩
      ⟨"b", "Raven", [], [], [], [], [], []⟩).2 (by decide)⟩

/-! ## The cargo item grammar: lemmas -/

theorem matchSuffix_some (r ds : List Char) (h : matchSuffix r = some ds) :
    r = ' ' :: 'x' :: ds ∧ ds ≠ [] ∧ ds.all isDigitChar = true := by
  unfold matchSuffix at h
  split at h
  · split at h
    · rename_i hall
      simp only [Option.some.injEq] at h
      subst h
      exact ⟨rfl, List.cons_ne_nil _ _, hall⟩
    · simp at h
  · simp at h

theorem matchSuffix_of_digits (ds : List Char) (h1 : ds ≠ [])
    (h2 : ds.all isDigitChar = true) : matchSuffix (' ' :: 'x' :: ds) = some ds := by
  cases ds with
  | nil => exact absurd rfl h1
  | cons d t =>
    unfold matchSuffix
    simp only [h2, if_true]

theorem matchCargoFrom_step (cs : List Char) (i : Nat)
    (h : matchSuffix (cs.drop (i + 1)) = none) :
    matchCargoFrom cs (i + 1) = matchCargoFrom cs i := by
  rw [matchCargoFrom]
  split
  · rw [h]
  · rfl

theorem isDigitChar_ne_space (c : Char) (h : isDigitChar c = true) : c ≠ ' ' := by
  intro hc
  subst hc
  simp [isDigitChar] at h

theorem matchSuffix_drop_none (D : List Char) (hdig : D.all isDigitChar = true) (m : Nat) :
    matchSuffix (('x' :: D).drop m) = none := by
  cases hm : matchSuffix (('x' :: D).drop m) with
  | none => rfl
  | some ds =>
    exfalso
    have h1 := (matchSuffix_some _ _ hm).1
    have hmem : ' ' ∈ ('x' :: D).drop m := by
      rw [h1]
      exact List.mem_cons_self _ _
    have hmem2 : ' ' ∈ 'x' :: D := List.mem_of_mem_drop hmem
    rcases List.mem_cons.1 hmem2 with h | h
    · exact absurd h (by decide)
    · exact isDigitChar_ne_space ' ' (List.all_eq_true.1 hdig _ h) rfl

theorem matchCargoFrom_of_suffix (N D : List Char) (hN : N ≠ [])
    (hdot : N.all isDotChar = true) (hD : D ≠ []) (hdig : D.all isDigitChar = true)
    (m : Nat) :
    matchCargoFrom (N ++ ' ' :: 'x' :: D) (N.length + m) = some (N, D) := by
  induction m with
  | zero =>
    cases hl : N.length with
    | zero => exact absurd (List.length_eq_zero.1 hl) hN
    | succ l =>
      have ht : (N ++ ' ' :: 'x' :: D).take (l + 1) = N := by
        rw [← hl]
        exact List.take_left _ _
      have hd : (N ++ ' ' :: 'x' :: D).drop (l + 1) = ' ' :: 'x' :: D := by
        rw [← hl]
        exact List.drop_left _ _
      show matchCargoFrom (N ++ ' ' :: 'x' :: D) (l + 1) = some (N, D)
      rw [matchCargoFrom, ht, hd, hdot, matchSuffix_of_digits D hD hdig]
      rfl
  | succ m ih =>
    have hd : (N ++ ' ' :: 'x' :: D).drop (N.length + m + 1) = ('x' :: D).drop m := by
      have e : N.length + m + 1 = N.length + (m + 1) := by omega
      rw [e, List.drop_append]
      rfl
    have hstep := matchCargoFrom_step (N ++ ' ' :: 'x' :: D) (N.length + m)
      (by rw [hd]; exact matchSuffix_drop_none D hdig m)
    show matchCargoFrom (N ++ ' ' :: 'x' :: D) (N.length + m + 1) = some (N, D)
    rw [hstep, ih]

theorem cargoRegexp_of_suffix (n : String) (D : List Char) (hN : n ≠ "")
    (hnl : '\n' ∉ n.data) (hD : D ≠ []) (hdig : D.all isDigitChar = true) :
    cargoRegexp (n ++ " x" ++ String.mk D) = some (n.data, D) := by
  have hN2 : n.data ≠ [] := by
    intro h
    apply hN
    exact String.ext h
  have hdot : n.data.all isDotChar = true := by
    rw [List.all_eq_true]
    intro c hc
    simp only [isDotChar, decide_eq_true_eq]
    intro h
    exact hnl (h ▸ hc)
  have hdata : (n ++ " x" ++ String.mk D).data = n.data ++ ' ' :: 'x' :: D := by
    simp [String.data_append]
  unfold cargoRegexp
  rw [hdata]
  have hlen : (n.data ++ ' ' :: 'x' :: D).length = n.data.length + (2 + D.length) := by
    simp
    omega
  rw [hlen]
  exact matchCargoFrom_of_suffix n.data D hN2 hdot hD hdig _

theorem matchCargoFrom_none (cs : List Char)
    (h : ¬ ∃ p d, p ≠ [] ∧ d ≠ [] ∧ d.all isDigitChar = true ∧ cs = p ++ ' ' :: 'x' :: d)
    (i : Nat) : matchCargoFrom cs i = none := by
  induction i with
  | zero => rfl
  | succ i ih =>
    cases hm : matchSuffix (cs.drop (i + 1)) with
    | none => rw [matchCargoFrom_step cs i hm, ih]
    | some ds =>
      exfalso
      obtain ⟨h1, h2, h3⟩ := matchSuffix_some _ _ hm
      apply h
      refine ⟨cs.take (i + 1), ds, ?_, h2, h3, ?_⟩
      · intro ht
        have hcs : cs = [] := by
          cases cs with
          | nil => rfl
          | cons c t => simp at ht
        rw [hcs] at h1
        simp at h1
      · rw [← h1]
        exact (List.take_append_drop (i + 1) cs).symm

theorem digitsValue_append_singleton (ds : List Char) (c : Char) (a : Nat) :
    digitsValue a (ds ++ [c]) = digitsValue a ds * 10 + (c.toNat - 48) := by
  induction ds generalizing a with
  | nil => rfl
  | cons d t ih => exact ih _

theorem digitChar_spec (m : Nat) (h : m < 10) :
    isDigitChar (Nat.digitChar m) = true ∧ (Nat.digitChar m).toNat - 48 = m := by
  interval_cases m <;> decide

theorem toDigitsCore_spec (fuel n : Nat) (acc : List Char) (h : n < fuel) :
    ∃ ds, Nat.toDigitsCore 10 fuel n acc = ds ++ acc ∧ ds ≠ [] ∧
      ds.all isDigitChar = true ∧ digitsValue 0 ds = n := by
  induction fuel generalizing n acc with
  | zero => omega
  | succ fuel ih =>
    have hd := digitChar_spec (n % 10) (Nat.mod_lt _ (by decide))
    have hunf : Nat.toDigitsCore 10 (fuel + 1) n acc =
        if n / 10 = 0 then Nat.digitChar (n % 10) :: acc
        else Nat.toDigitsCore 10 fuel (n / 10) (Nat.digitChar (n % 10) :: acc) := rfl
    rw [hunf]
    generalize Nat.digitChar (n % 10) = c at hd
    obtain ⟨hd1, hd2⟩ := hd
    by_cases h0 : n / 10 = 0
    · refine ⟨[c], ?_, List.cons_ne_nil _ _, ?_, ?_⟩
      · rw [if_pos h0]
        rfl
      · simp [hd1]
      · show 0 * 10 + (c.toNat - 48) = n
        omega
    · have hlt : n / 10 < fuel := by omega
      obtain ⟨ds, h1, h2, h3, h4⟩ := ih (n / 10) (c :: acc) hlt
      refine ⟨ds ++ [c], ?_, ?_, ?_, ?_⟩
      · rw [if_neg h0, h1]
        simp
      · simp
      · simp [List.all_append, h3, hd1]
      · rw [digitsValue_append_singleton, h4]
        omega

theorem toString_nat_spec (k : Nat) :
    ∃ ds, toString k = String.mk ds ∧ ds ≠ [] ∧
      ds.all isDigitChar = true ∧ digitsValue 0 ds = k := by
  obtain ⟨ds, h1, h2, h3, h4⟩ := toDigitsCore_spec (k + 1) k [] (by omega)
  refine ⟨ds, ?_, h2, h3, h4⟩
  show Nat.repr k = String.mk ds
  simp only [Nat.repr, Nat.toDigits, h1, List.append_nil, List.asString]

theorem no_count_suffix_of_last (cs : List Char) (c : Char) (hl : cs.getLast? = some c)
    (hc : isDigitChar c = false) :
    ¬ ∃ p d, p ≠ [] ∧ d ≠ [] ∧ d.all isDigitChar = true ∧ cs = p ++ ' ' :: 'x' :: d := by
  rintro ⟨p, d, _, hd, hdig, h⟩
  have e : p ++ ' ' :: 'x' :: d = (p ++ [' ', 'x']) ++ d := by simp
  rw [h, e, List.getLast?_append_of_ne_nil _ hd, List.getLast?_eq_getLast _ hd] at hl
  have hmem : d.getLast hd ∈ d := List.getLast_mem hd
  have hdg := List.all_eq_true.1 hdig _ hmem
  rw [Option.some.inj hl, hc] at hdg
  exact Bool.noConfusion hdg

/-! ## The cargo item grammar: claims C7 and C8 -/

/-- C7: the cargo item grammar splits off a trailing count and otherwise
defaults to 1.  For a non-empty name n without a newline and a number k that
fits a machine int, `parseCargoItem` of n, " x" and the decimal text of k
returns name n and amount k (whatever n ends in); and a line that is not some
non-empty text followed by " x" and one or more decimal digits comes back
whole, with amount 1. -/
theorem parseCargoItem_grammar :
    (∀ (n : String) (k : Nat), n ≠ "" → '\n' ∉ n.data → (k : Int) ≤ maxInt →
      parseCargoItem (n ++ " x" ++ toString k) = { name := n, amount := (k : Int) }) ∧
    (∀ line : String,
      (¬ ∃ p d, p ≠ [] ∧ d ≠ [] ∧ d.all isDigitChar = true ∧
        line.data = p ++ ' ' :: 'x' :: d) →
      parseCargoItem line = { name := line, amount := 1 }) := by
  constructor
  · intro n k hn hnl hk
    obtain ⟨ds, h1, h2, h3, h4⟩ := toString_nat_spec k
    unfold parseCargoItem
    rw [h1, cargoRegexp_of_suffix n ds hn hnl h2 h3]
    simp only [atoi, h4, hk, if_true]
  · intro line h
    unfold parseCargoItem cargoRegexp
    rw [matchCargoFrom_none line.data h]

/-- Witness of C7: the two cargo lines of the spec, and a name that itself
ends in a count. -/
theorem parseCargoItem_grammar_witness :
    parseCargoItem ("Phased Plasma M" ++ " x" ++ toString 1600)
        = { name := "Phased Plasma M", amount := 1600 } ∧
    parseCargoItem ("Foo x3" ++ " x" ++ toString 4) = { name := "Foo x3", amount := 4 } ∧
    parseCargoItem "Warp Core Stabilizer" = { name := "Warp Core Stabilizer", amount := 1 } :=
  ⟨parseCargoItem_grammar.1 "Phased Plasma M" 1600 (by decide) (by decide) (by decide),
   parseCargoItem_grammar.1 "Foo x3" 4 (by decide) (by decide) (by decide),
   parseCargoItem_grammar.2 "Warp Core Stabilizer"
     (no_count_suffix_of_last _ 'r' (by decide) (by decide))⟩

/-- C8, counterexample: the digit string of "Foo x9223372036854775808" does
not fit a 64-bit int, yet `parseCargoItem` does not return the whole line with
amount 1: it returns the prefix "Foo" with the largest int. -/
theorem overlong_count_keeps_prefix :
    maxInt < (digitsValue 0 "9223372036854775808".data : Int) ∧
    parseCargoItem "Foo x9223372036854775808"
      ≠ { name := "Foo x9223372036854775808", amount := 1 } ∧
    parseCargoItem "Foo x9223372036854775808"
      = { name := "Foo", amount := 9223372036854775807 } := by
  decide

/-- C8, amended: for a non-empty name n without a newline and a non-empty
digit string whose value does not fit a machine int, `parseCargoItem` of n,
" x" and the digits returns the prefix n as the name and the largest machine
int as the amount. -/
theorem parseCargoItem_overflow (n : String) (ds : List Char) (hn : n ≠ "")
    (hnl : '\n' ∉ n.data) (hds : ds ≠ []) (hdig : ds.all isDigitChar = true)
    (hbig : maxInt < (digitsValue 0 ds : Int)) :
    parseCargoItem (n ++ " x" ++ String.mk ds) = { name := n, amount := maxInt } := by
  unfold parseCargoItem
  rw [cargoRegexp_of_suffix n ds hn hnl hds hdig]
  simp only [atoi, not_le.2 hbig, if_false]

/-- Witness of the amended C8 at "Foo x9223372036854775808". -/
theorem parseCargoItem_overflow_witness :
    parseCargoItem ("Foo" ++ " x" ++ String.mk "9223372036854775808".data)
      = { name := "Foo", amount := maxInt } :=
  parseCargoItem_overflow "Foo" "9223372036854775808".data (by decide) (by decide)
    (by decide) (by decide) (by decide)

/-! ## The parser: structure of a successful parse -/

theorem length_eq_zero_iff (line : String) : line.length = 0 ↔ line = "" := by
  constructor
  · intro h
    apply String.ext
    exact List.length_eq_zero.1 h
  · intro h
    rw [h]
    rfl

theorem sectionLines_cons_blank (rest : List String) : sectionLines ("" :: rest) = [] := by
  simp [sectionLines]

theorem afterSection_cons_blank (rest : List String) : afterSection ("" :: rest) = rest := by
  simp [afterSection]

theorem sectionLines_cons (line : String) (rest : List String) (h : line ≠ "") :
    sectionLines (line :: rest) = line :: sectionLines rest := by
  simp [sectionLines, h]

theorem afterSection_cons (line : String) (rest : List String) (h : line ≠ "") :
    afterSection (line :: rest) = afterSection rest := by
  simp [afterSection, h]

theorem delivered_cons (raw : String) (t : List String) :
    delivered (raw :: t) = dropCR raw :: delivered t := rfl

theorem delivered_drop (n : Nat) (s : List String) :
    delivered (s.drop n) = (delivered s).drop n := by
  simp [delivered, List.map_drop]

theorem delivered_length (s : List String) : (delivered s).length = s.length := by
  simp [delivered]

theorem readSlots_ok (msg : String) (s : List String) (m m2 : SlotMap) (rest : List String)
    (h : readSlots msg s m = .ok (m2, rest)) :
    m2 = accumulate (slotItems (sectionLines (delivered s))) m ∧
      delivered rest = afterSection (delivered s) := by
  induction s generalizing m with
  | nil => simp [readSlots] at h
  | cons raw t ih =>
    by_cases hbig : maxScanTokenSize ≤ raw.utf8ByteSize
    · simp [readSlots, hbig] at h
    · by_cases hl : (dropCR raw).length = 0
      · have hb : dropCR raw = "" := (length_eq_zero_iff _).1 hl
        simp only [readSlots, hbig, hl, if_true, if_false, Except.ok.injEq,
          Prod.mk.injEq] at h
        rw [delivered_cons, hb, sectionLines_cons_blank, afterSection_cons_blank]
        exact ⟨h.1.symm, by rw [h.2]⟩
      · have hb : dropCR raw ≠ "" := fun e => hl ((length_eq_zero_iff _).2 e)
        simp only [readSlots, hbig, hl, if_false] at h
        rw [delivered_cons, sectionLines_cons _ _ hb, afterSection_cons _ _ hb]
        exact ih _ h

theorem readCargoSlots_ok (msg : String) (s : List String) (m m2 : SlotMap)
    (rest : List String) (h : readCargoSlots msg s m = .ok (m2, rest)) :
    m2 = accumulate (cargoItems (sectionLines (delivered s))) m ∧
      delivered rest = afterSection (delivered s) := by
  induction s generalizing m with
  | nil => simp [readCargoSlots] at h
  | cons raw t ih =>
    by_cases hbig : maxScanTokenSize ≤ raw.utf8ByteSize
    · simp [readCargoSlots, hbig] at h
    · by_cases hl : (dropCR raw).length = 0
      · have hb : dropCR raw = "" := (length_eq_zero_iff _).1 hl
        simp only [readCargoSlots, hbig, hl, if_true, if_false, Except.ok.injEq,
          Prod.mk.injEq] at h
        rw [delivered_cons, hb, sectionLines_cons_blank, afterSection_cons_blank]
        exact ⟨h.1.symm, by rw [h.2]⟩
      · have hb : dropCR raw ≠ "" := fun e => hl ((length_eq_zero_iff _).2 e)
        simp only [readCargoSlots, hbig, hl, if_false] at h
        rw [delivered_cons, sectionLines_cons _ _ hb, afterSection_cons _ _ hb]
        exact ih _ h

theorem readBlankLines_ok (n : Nat) (s s2 : List String)
    (h : readBlankLines n s = .ok s2) : s2 = s.drop n := by
  induction n generalizing s with
  | zero =>
    simp only [readBlankLines, Except.ok.injEq] at h
    simp [h]
  | succ n ih =>
    cases s with
    | nil => simp [readBlankLines, myReadLine] at h
    | cons raw t =>
      by_cases hbig : maxScanTokenSize ≤ raw.utf8ByteSize
      · simp [readBlankLines, myReadLine, hbig] at h
      · by_cases hl : (dropCR raw).length = 0
        · simp only [readBlankLines, myReadLine, hbig, if_false, hl, ne_eq,
            not_true_eq_false] at h
          simpa using ih _ h
        · simp [readBlankLines, myReadLine, hbig, hl] at h

/-- The six maps of a successfully parsed fit are the additive accumulation
of the six blocks of the delivered lines. -/
theorem readInFit_ok_maps (lines : List String) (s : ship) (h : readInFit lines = .ok s) :
    s.lowSlots = accumulate (slotItems (lowBlock (delivered lines))) [] ∧
    s.midSlots = accumulate (slotItems (midBlock (delivered lines))) [] ∧
    s.highSlots = accumulate (slotItems (highBlock (delivered lines))) [] ∧
    s.rigs = accumulate (slotItems (rigBlock (delivered lines))) [] ∧
    s.drones = accumulate (cargoItems (droneBlock (delivered lines))) [] ∧
    s.cargo = accumulate (cargoItems (cargoBlock (delivered lines))) [] := by
  cases lines with
  | nil => simp [readInFit, myReadLine] at h
  | cons raw s0 =>
    by_cases hbig : maxScanTokenSize ≤ raw.utf8ByteSize
    · simp [readInFit, myReadLine, hbig] at h
    · simp only [readInFit, myReadLine, hbig, if_false] at h
      split at h
      · simp at h
      · rename_i shipType shipName _
        split at h
        · simp at h
        · rename_i lowSlots s1 h1
          split at h
          · simp at h
          · rename_i midSlots s2 h2
            split at h
            · simp at h
            · rename_i highSlots s3 h3
              split at h
              · simp at h
              · rename_i rigs s4 h4
                split at h
                · simp at h
                · rename_i s5 h5
                  split at h
                  · simp at h
                  · rename_i drones s6 h6
                    split at h
                    · simp at h
                    · rename_i cargo s7 h7
                      simp only [Except.ok.injEq] at h
                      obtain ⟨e1, r1⟩ := readSlots_ok _ _ _ _ _ h1
                      obtain ⟨e2, r2⟩ := readSlots_ok _ _ _ _ _ h2
                      obtain ⟨e3, r3⟩ := readSlots_ok _ _ _ _ _ h3
                      obtain ⟨e4, r4⟩ := readSlots_ok _ _ _ _ _ h4
                      have r5 : delivered s5 = (delivered s4).drop 2 := by
                        rw [readBlankLines_ok _ _ _ h5, delivered_drop]
                      obtain ⟨e6, r6⟩ := readCargoSlots_ok _ _ _ _ _ h6
                      obtain ⟨e7, _⟩ := readCargoSlots_ok _ _ _ _ _ h7
                      have hd : (delivered (raw :: s0)).drop 1 = delivered s0 := rfl
                      rw [← h]
                      simp only [lowBlock, midBlock, highBlock, rigBlock, droneBlock,
                        cargoBlock, afterRigs, hd, ← r1, ← r2, ← r3, ← r4, ← r5, ← r6]
                      exact ⟨e1, e2, e3, e4, e6, e7⟩

/-! ## The parser: what the maps hold -/

theorem mem_assign (m : SlotMap) (n : String) (v : Int) (e : String × Int)
    (h : e ∈ assign m n v) : e ∈ m ∨ e = (n, v) := by
  induction m with
  | nil =>
    simp only [assign, List.mem_singleton] at h
    exact Or.inr h
  | cons e0 rest ih =>
    obtain ⟨k0, v0⟩ := e0
    by_cases hk : k0 = n
    · simp only [assign, hk, if_true, List.mem_cons] at h
      rcases h with h | h
      · exact Or.inr h
      · exact Or.inl (List.mem_cons_of_mem _ h)
    · simp only [assign, hk, if_false, List.mem_cons] at h
      rcases h with h | h
      · exact Or.inl (h ▸ List.mem_cons_self _ _)
      · rcases ih h with h2 | h2
        · exact Or.inl (List.mem_cons_of_mem _ h2)
        · exact Or.inr h2

theorem mem_updateMap (m : SlotMap) (n : String) (a : Int) (e : String × Int)
    (h : e ∈ updateMap m n a) :
    e ∈ m ∨ e = (n, a) ∨ ((n, index m n) ∈ m ∧ e = (n, wrapInt (index m n + a))) := by
  unfold updateMap at h
  split at h
  · rename_i hd
    rcases mem_assign _ _ _ _ h with h1 | h1
    · exact Or.inl h1
    · exact Or.inr (Or.inr ⟨index_mem m n hd, h1⟩)
  · rcases mem_assign _ _ _ _ h with h1 | h1
    · exact Or.inl h1
    · exact Or.inr (Or.inl h1)

theorem accumulate_keys (P : String → Prop) (items : List (String × Int)) (m : SlotMap)
    (hm : ∀ e ∈ m, P e.1) (hi : ∀ it ∈ items, P it.1) :
    ∀ e ∈ accumulate items m, P e.1 := by
  induction items generalizing m with
  | nil => exact hm
  | cons it rest ih =>
    show ∀ e ∈ accumulate rest (updateMap m it.1 it.2), P e.1
    apply ih
    · intro e he
      rcases mem_updateMap _ _ _ _ he with h1 | h1 | ⟨_, h1⟩
      · exact hm e h1
      · rw [h1]
        exact hi it (List.mem_cons_self _ _)
      · rw [h1]
        exact hi it (List.mem_cons_self _ _)
    · intro it2 h2
      exact hi it2 (List.mem_cons_of_mem _ h2)

theorem sum_amounts_nonneg (items : List (String × Int)) (hi : ∀ it ∈ items, 0 < it.2) :
    0 ≤ (items.map Prod.snd).sum := by
  induction items with
  | nil => simp
  | cons it rest ih =>
    have h1 := hi it (List.mem_cons_self _ _)
    have h2 := ih (fun it2 h => hi it2 (List.mem_cons_of_mem _ h))
    simp only [List.map_cons, List.sum_cons]
    omega

theorem accumulate_pos (items : List (String × Int)) (m : SlotMap) (t : Int)
    (hm : ∀ e ∈ m, 0 < e.2 ∧ e.2 ≤ t) (ht : 0 ≤ t) (hi : ∀ it ∈ items, 0 < it.2)
    (hsum : t + (items.map Prod.snd).sum ≤ maxInt) :
    ∀ e ∈ accumulate items m, 0 < e.2 ∧ e.2 ≤ t + (items.map Prod.snd).sum := by
  induction items generalizing m t with
  | nil => simpa [accumulate] using hm
  | cons it rest ih =>
    have hpos := hi it (List.mem_cons_self _ _)
    have hrest : ∀ it2 ∈ rest, 0 < it2.2 := fun it2 h => hi it2 (List.mem_cons_of_mem _ h)
    have hnn := sum_amounts_nonneg rest hrest
    simp only [List.map_cons, List.sum_cons] at hsum ⊢
    have hstep : ∀ e ∈ updateMap m it.1 it.2, 0 < e.2 ∧ e.2 ≤ t + it.2 := by
      intro e he
      rcases mem_updateMap _ _ _ _ he with h1 | h1 | ⟨hmem, h1⟩
      · have := hm e h1
        omega
      · rw [h1]
        simp only
        omega
      · have hidx := hm _ hmem
        simp only at hidx
        have hw : wrapInt (index m it.1 + it.2) = index m it.1 + it.2 := by
          apply wrapInt_of_range <;> unfold minInt maxInt at * <;> omega
        rw [h1, hw]
        simp only
        omega
    have := ih (updateMap m it.1 it.2) (t + it.2) hstep (by omega) hrest (by omega)
    intro e he
    have h2 := this e he
    omega

theorem slotItems_pos (block : List String) : ∀ it ∈ slotItems block, 0 < it.2 := by
  intro it h
  simp only [slotItems, List.mem_map] at h
  obtain ⟨l, _, hl⟩ := h
  rw [← hl]
  exact Int.one_pos

theorem slotItems_sum (block : List String) :
    ((slotItems block).map Prod.snd).sum = (block.length : Int) := by
  induction block with
  | nil => rfl
  | cons l rest ih =>
    simp only [slotItems, List.map_cons, List.sum_cons, List.length_cons] at ih ⊢
    rw [ih]
    push_cast
    omega

theorem sectionLines_length_le (s : List String) : (sectionLines s).length ≤ s.length :=
  (List.takeWhile_sublist _).length_le

theorem afterSection_length_le (s : List String) : (afterSection s).length ≤ s.length := by
  unfold afterSection
  have h1 := (List.dropWhile_sublist (fun l => decide (l ≠ "")) (l := s)).length_le
  rw [List.length_drop]
  omega

theorem equipped_pos (block : List String) (hlen : (block.length : Int) ≤ maxInt) :
    ∀ e ∈ accumulate (slotItems block) [], 0 < e.2 := by
  intro e he
  have h := accumulate_pos (slotItems block) [] 0 (by simp) (le_refl 0) (slotItems_pos block)
    (by rw [slotItems_sum]; omega) e he
  exact h.1

theorem atoi_nonneg (ds : List Char) : 0 ≤ atoi ds := by
  unfold atoi
  split
  · exact Int.natCast_nonneg _
  · decide

theorem parseCargoItem_amount_nonneg (line : String) : 0 ≤ (parseCargoItem line).amount := by
  unfold parseCargoItem
  split
  · exact Int.one_pos.le
  · exact atoi_nonneg _

theorem carried_pos (block : List String)
    (hpos : ∀ l ∈ block, (parseCargoItem l).amount ≠ 0)
    (hsum : (block.map (fun l => (parseCargoItem l).amount)).sum ≤ maxInt) :
    ∀ e ∈ accumulate (cargoItems block) [], 0 < e.2 := by
  intro e he
  have hi : ∀ it ∈ cargoItems block, 0 < it.2 := by
    intro it h
    simp only [cargoItems, List.mem_map] at h
    obtain ⟨l, hl, e1⟩ := h
    rw [← e1]
    have h1 := hpos l hl
    have h2 := parseCargoItem_amount_nonneg l
    simp only
    omega
  have hs : ((cargoItems block).map Prod.snd).sum
      = (block.map (fun l => (parseCargoItem l).amount)).sum := by
    simp [cargoItems, Function.comp_def]
  have h := accumulate_pos (cargoItems block) [] 0 (by simp) (le_refl 0) hi
    (by rw [hs]; omega) e he
  exact h.1

theorem matchCargoFrom_some (cs : List Char) (i : Nat) (g1 g2 : List Char)
    (h : matchCargoFrom cs i = some (g1, g2)) :
    ∃ j, g1 = cs.take (j + 1) ∧ matchSuffix (cs.drop (j + 1)) = some g2 := by
  induction i with
  | zero => simp [matchCargoFrom] at h
  | succ i ih =>
    cases hm : matchSuffix (cs.drop (i + 1)) with
    | none =>
      rw [matchCargoFrom_step cs i hm] at h
      exact ih h
    | some ds =>
      by_cases hdot : (cs.take (i + 1)).all isDotChar = true
      · rw [matchCargoFrom] at h
        simp only [hdot, if_true, hm, Option.some.injEq, Prod.mk.injEq] at h
        exact ⟨i, h.1.symm, by rw [hm, h.2]⟩
      · rw [matchCargoFrom] at h
        simp only [hdot, if_false] at h
        exact ih h

theorem parseCargoItem_name_ne_empty (line : String) (h : line ≠ "") :
    (parseCargoItem line).name ≠ "" := by
  unfold parseCargoItem
  split
  · exact h
  · rename_i g1 g2 hc
    obtain ⟨j, hj, hs⟩ := matchCargoFrom_some _ _ _ _ hc
    intro hn
    have hg : g1 = [] := congrArg String.data hn
    rw [hg] at hj
    cases hd : line.data with
    | nil => exact h (String.ext hd)
    | cons c t =>
      rw [hd] at hj
      simp at hj

theorem mem_sectionLines_ne_empty (s : List String) (l : String) (h : l ∈ sectionLines s) :
    l ≠ "" := by
  have := List.mem_takeWhile_imp h
  simpa using this

/-! ## The parser: claims C9 and C10 -/

/-- C9, counterexample: the fit whose drone section holds the line "Foo x0"
parses, and its drone map stores the count 0 for "Foo". -/
theorem readInFit_stores_zero_count :
    ∃ s, readInFit ["[Raven, My Raven]", "", "", "", "", "", "", "Foo x0", "", ""] = .ok s ∧
      ("Foo", 0) ∈ s.drones ∧ ¬ (∀ e ∈ s.drones, 0 < e.2) :=
  ⟨_, rfl, by decide, by decide⟩

/-- C9, amended: on every input of fewer than 2^63 lines that `readInFit`
parses, every value of the four equipped-slot maps is strictly positive; and
every value of the drone map (of the cargo map) is strictly positive when no
line of the drone block (of the cargo block) parses to the amount 0 and the
amounts of that block sum to at most the largest machine int.  The blocks are
those of the lines as the scanner delivers them. -/
theorem readInFit_counts_positive (lines : List String) (s : ship)
    (h : readInFit lines = .ok s) (hlen : (lines.length : Int) ≤ maxInt) :
    (∀ e ∈ s.lowSlots ++ s.midSlots ++ s.highSlots ++ s.rigs, 0 < e.2) ∧
    ((∀ l ∈ droneBlock (delivered lines), (parseCargoItem l).amount ≠ 0) →
      ((droneBlock (delivered lines)).map (fun l => (parseCargoItem l).amount)).sum
        ≤ maxInt →
      ∀ e ∈ s.drones, 0 < e.2) ∧
    ((∀ l ∈ cargoBlock (delivered lines), (parseCargoItem l).amount ≠ 0) →
      ((cargoBlock (delivered lines)).map (fun l => (parseCargoItem l).amount)).sum
        ≤ maxInt →
      ∀ e ∈ s.cargo, 0 < e.2) := by
  obtain ⟨e1, e2, e3, e4, e5, e6⟩ := readInFit_ok_maps lines s h
  have d0 : ((delivered lines).drop 1).length ≤ lines.length := by
    rw [List.length_drop, delivered_length]
    omega
  have a1 := afterSection_length_le ((delivered lines).drop 1)
  have a2 := afterSection_length_le (afterSection ((delivered lines).drop 1))
  have a3 := afterSection_length_le (afterSection (afterSection ((delivered lines).drop 1)))
  have b1 := sectionLines_length_le ((delivered lines).drop 1)
  have b2 := sectionLines_length_le (afterSection ((delivered lines).drop 1))
  have b3 := sectionLines_length_le (afterSection (afterSection ((delivered lines).drop 1)))
  have b4 := sectionLines_length_le
    (afterSection (afterSection (afterSection ((delivered lines).drop 1))))
  refine ⟨?_, ?_, ?_⟩
  · intro e he
    simp only [List.mem_append] at he
    rcases he with ((he | he) | he) | he
    · rw [e1] at he
      exact equipped_pos (lowBlock (delivered lines)) (by unfold lowBlock; omega) e he
    · rw [e2] at he
      exact equipped_pos (midBlock (delivered lines)) (by unfold midBlock; omega) e he
    · rw [e3] at he
      exact equipped_pos (highBlock (delivered lines)) (by unfold highBlock; omega) e he
    · rw [e4] at he
      exact equipped_pos (rigBlock (delivered lines)) (by unfold rigBlock; omega) e he
  · intro hpos hsum e he
    rw [e5] at he
    exact carried_pos (droneBlock (delivered lines)) hpos hsum e he
  · intro hpos hsum e he
    rw [e6] at he
    exact carried_pos (cargoBlock (delivered lines)) hpos hsum e he

/-- Witness of the amended C9: a fit with two low slots, two drone lines of
the same name and one cargo line. -/
theorem readInFit_counts_positive_witness :
    (∀ e ∈ [("Mod X", (2 : Int))] ++ [] ++ [] ++ [], 0 < e.2) ∧
    (∀ e ∈ [("Hobgoblin I", (8 : Int))], 0 < e.2) ∧
    (∀ e ∈ [("Phased Plasma M", (1600 : Int))], 0 < e.2) :=
  have h := readInFit_counts_positive
    ["[Raven, My Raven]", "Mod X", "Mod X", "", "", "", "", "", "",
      "Hobgoblin I x5", "Hobgoblin I x3", "", "Phased Plasma M x1600", ""]
    ⟨"My Raven", "Raven", [("Mod X", 2)], [], [], [], [("Hobgoblin I", 8)],
      [("Phased Plasma M", 1600)]⟩ rfl (by decide)
  ⟨h.1, h.2.1 (by decide) (by decide), h.2.2 (by decide) (by decide)⟩

/-- C10: every key in a parsed Loadout is a non-empty item name.
`parseCargoItem` of a non-empty line never returns an empty name, and on
every input that `readInFit` parses no key of any of the six maps is the
empty string. -/
theorem readInFit_keys_nonempty :
    (∀ line : String, line ≠ "" → (parseCargoItem line).name ≠ "") ∧
    (∀ (lines : List String) (s : ship), readInFit lines = .ok s →
      ∀ e ∈ s.lowSlots ++ s.midSlots ++ s.highSlots ++ s.rigs ++ s.drones ++ s.cargo,
        e.1 ≠ "") := by
  refine ⟨parseCargoItem_name_ne_empty, ?_⟩
  intro lines s h e he
  obtain ⟨e1, e2, e3, e4, e5, e6⟩ := readInFit_ok_maps lines s h
  have hslots : ∀ block : List String, (∀ l ∈ block, l ≠ "") →
      ∀ e ∈ accumulate (slotItems block) [], e.1 ≠ "" := by
    intro block hb
    apply accumulate_keys (fun k => k ≠ "")
    · intro e0 h0
      simp at h0
    · intro it hit
      simp only [slotItems, List.mem_map] at hit
      obtain ⟨l, hl, e0⟩ := hit
      rw [← e0]
      exact hb l hl
  have hcargo : ∀ block : List String, (∀ l ∈ block, l ≠ "") →
      ∀ e ∈ accumulate (cargoItems block) [], e.1 ≠ "" := by
    intro block hb
    apply accumulate_keys (fun k => k ≠ "")
    · intro e0 h0
      simp at h0
    · intro it hit
      simp only [cargoItems, List.mem_map] at hit
      obtain ⟨l, hl, e0⟩ := hit
      rw [← e0]
      exact parseCargoItem_name_ne_empty l (hb l hl)
  simp only [List.mem_append] at he
  rcases he with ((((he | he) | he) | he) | he) | he
  · rw [e1] at he
    exact hslots _ (fun l hl => mem_sectionLines_ne_empty _ l hl) e he
  · rw [e2] at he
    exact hslots _ (fun l hl => mem_sectionLines_ne_empty _ l hl) e he
  · rw [e3] at he
    exact hslots _ (fun l hl => mem_sectionLines_ne_empty _ l hl) e he
  · rw [e4] at he
    exact hslots _ (fun l hl => mem_sectionLines_ne_empty _ l hl) e he
  · rw [e5] at he
    exact hcargo _ (fun l hl => mem_sectionLines_ne_empty _ l hl) e he
  · rw [e6] at he
    exact hcargo _ (fun l hl => mem_sectionLines_ne_empty _ l hl) e he

/-- Witness of C10: the names parsed from "Foo x3 x4" and from a fit with
drones and cargo are non-empty. -/
theorem readInFit_keys_nonempty_witness :
    (parseCargoItem "Foo x3 x4").name ≠ "" ∧
    (∀ e ∈ [("Mod X", (2 : Int))] ++ [] ++ [] ++ [] ++ [("Hobgoblin I", (8 : Int))]
        ++ [("Phased Plasma M", (1600 : Int))], e.1 ≠ "") :=
  ⟨readInFit_keys_nonempty.1 "Foo x3 x4" (by decide),
   readInFit_keys_nonempty.2
    ["[Raven, My Raven]", "Mod X", "Mod X", "", "", "", "", "", "",
      "Hobgoblin I x5", "Hobgoblin I x3", "", "Phased Plasma M x1600", ""]
    ⟨"My Raven", "Raven", [("Mod X", 2)], [], [], [], [("Hobgoblin I", 8)],
      [("Phased Plasma M", 1600)]⟩ rfl⟩

/-! ## The differ: claims C18 and C20 -/

theorem removalLoop_true (A B : SlotMap) (label : String) (rest : SlotMap) :
    removalLoop A B label rest true =
      (rest.filterMap (removalEntry A B)).map (fun e => Out.entry e.1 e.2) := by
  induction rest with
  | nil => rfl
  | cons e rest ih =>
    obtain ⟨k, v⟩ := e
    cases hB : doesKeyExist B k
    · simp [removalLoop, removalEntry, hB, ih]
    · by_cases hx : 0 < wrapInt (index A k - index B k)
      · simp [removalLoop, removalEntry, hB, hx, ih]
      · simp [removalLoop, removalEntry, hB, hx, ih]

theorem removalLoop_false (A B : SlotMap) (label : String) (rest : SlotMap) :
    removalLoop A B label rest false =
      if rest.filterMap (removalEntry A B) = [] then []
      else Out.line ("Remove from " ++ label) ::
        (rest.filterMap (removalEntry A B)).map (fun e => Out.entry e.1 e.2) := by
  induction rest with
  | nil => rfl
  | cons e rest ih =>
    obtain ⟨k, v⟩ := e
    cases hB : doesKeyExist B k
    · simp [removalLoop, removalEntry, hB, removalLoop_true]
    · by_cases hx : 0 < wrapInt (index A k - index B k)
      · simp [removalLoop, removalEntry, hB, hx, removalLoop_true]
      · have hfm : (((k, v) : String × Int) :: rest).filterMap (removalEntry A B) =
            rest.filterMap (removalEntry A B) := by
          simp [removalEntry, hB, hx]
        rw [hfm, ← ih]
        simp [removalLoop, hB, hx]

theorem wrapInt_antisymm (a b : Int) (h1 : 0 < wrapInt (a - b)) (h2 : 0 < wrapInt (b - a)) :
    False := by
  unfold wrapInt at h1 h2
  omega

theorem removalEntry_some (A B : SlotMap) (e : String × Int) (q : Int) (n : String)
    (h : removalEntry A B e = some (q, n)) :
    n = e.1 ∧ (doesKeyExist B n = true → 0 < wrapInt (index A n - index B n)) := by
  unfold removalEntry at h
  split at h
  · rename_i hB
    split at h
    · rename_i hx
      simp only [Option.some.injEq, Prod.mk.injEq] at h
      rw [← h.2]
      exact ⟨rfl, fun _ => hx⟩
    · simp at h
  · rename_i hB
    simp only [Option.some.injEq, Prod.mk.injEq] at h
    rw [← h.2]
    exact ⟨rfl, fun hd => absurd hd hB⟩

/-- C18: a category heading appears exactly when the category has something
to report.  The output of `compareSlotsRemoval` is empty when it has no entry,
and otherwise it is the heading "Remove from label" followed by the entries
and nothing else; the same holds for `compareSlotsAdditions` with the heading
"Add To label". -/
theorem heading_exactly_with_entries (A B : SlotMap) (label : String) :
    (entriesOf (compareSlotsRemoval A B label) = [] → compareSlotsRemoval A B label = []) ∧
    (entriesOf (compareSlotsRemoval A B label) ≠ [] →
      compareSlotsRemoval A B label = Out.line ("Remove from " ++ label) ::
        (entriesOf (compareSlotsRemoval A B label)).map (fun e => Out.entry e.1 e.2)) ∧
    (entriesOf (compareSlotsAdditions A B label) = [] →
      compareSlotsAdditions A B label = []) ∧
    (entriesOf (compareSlotsAdditions A B label) ≠ [] →
      compareSlotsAdditions A B label = Out.line ("Add To " ++ label) ::
        (entriesOf (compareSlotsAdditions A B label)).map (fun e => Out.entry e.1 e.2)) := by
  have hadd : compareSlotsAdditions A B label =
      (removalLoop B A label B false).map (toAddHeading label) :=
    additionsLoop_eq_map A B label B false
  have hea : entriesOf (compareSlotsAdditions A B label) = B.filterMap (removalEntry B A) :=
    entriesOf_additionsLoop A B label B false
  have her : entriesOf (compareSlotsRemoval A B label) = A.filterMap (removalEntry A B) :=
    entriesOf_removalLoop A B label A false
  rw [hea, her, hadd]
  unfold compareSlotsRemoval
  rw [removalLoop_false, removalLoop_false]
  refine ⟨?_, ?_, ?_, ?_⟩
  · intro h
    rw [if_pos h]
  · intro h
    rw [if_neg h]
  · intro h
    rw [if_pos h]
    rfl
  · intro h
    rw [if_neg h]
    simp [toAddHeading, Function.comp_def]

/-- Witness of C18: the spec's diff example has the heading first and one
entry in each direction, and a map compared with itself gives no output. -/
theorem heading_exactly_with_entries_witness :
    compareSlotsRemoval [("Module X", 2)] [("Module X", 1), ("Module Y", 1)] "Low Slots"
      = [Out.line "Remove from Low Slots", Out.entry 1 "Module X"] ∧
    compareSlotsAdditions [("Module X", 2)] [("Module X", 1), ("Module Y", 1)] "Low Slots"
      = [Out.line "Add To Low Slots", Out.entry 1 "Module Y"] ∧
    compareSlotsRemoval [("Module X", 2)] [("Module X", 2)] "Low Slots" = [] ∧
    compareSlotsAdditions [("Module X", 2)] [("Module X", 2)] "Low Slots" = [] :=
  ⟨((heading_exactly_with_entries [("Module X", 2)] [("Module X", 1), ("Module Y", 1)]
      "Low Slots").2.1 (by decide)).trans (by decide),
   ((heading_exactly_with_entries [("Module X", 2)] [("Module X", 1), ("Module Y", 1)]
      "Low Slots").2.2.2 (by decide)).trans (by decide),
   (heading_exactly_with_entries [("Module X", 2)] [("Module X", 2)] "Low Slots").1
      (by decide),
   (heading_exactly_with_entries [("Module X", 2)] [("Module X", 2)] "Low Slots").2.2.1
      (by decide)⟩

/-- C20: no item is both removed and added in the same category: no item name
has an entry both in the output of `compareSlotsRemoval A B` and in the output
of `compareSlotsAdditions A B`. -/
theorem not_removed_and_added (A B : SlotMap) (label : String) (k : String) :
    ¬ ((∃ q, (q, k) ∈ entriesOf (compareSlotsRemoval A B label)) ∧
       (∃ q, (q, k) ∈ entriesOf (compareSlotsAdditions A B label))) := by
  rintro ⟨⟨q1, h1⟩, ⟨q2, h2⟩⟩
  have her : entriesOf (compareSlotsRemoval A B label) = A.filterMap (removalEntry A B) :=
    entriesOf_removalLoop A B label A false
  have hea : entriesOf (compareSlotsAdditions A B label) = B.filterMap (removalEntry B A) :=
    entriesOf_additionsLoop A B label B false
  rw [her, List.mem_filterMap] at h1
  rw [hea, List.mem_filterMap] at h2
  obtain ⟨e1, he1, hq1⟩ := h1
  obtain ⟨e2, he2, hq2⟩ := h2
  obtain ⟨hn1, hx1⟩ := removalEntry_some A B e1 q1 k hq1
  obtain ⟨hn2, hx2⟩ := removalEntry_some B A e2 q2 k hq2
  have hkA : doesKeyExist A k = true := by
    rw [hn1]
    exact doesKeyExist_of_mem A e1 he1
  have hkB : doesKeyExist B k = true := by
    rw [hn2]
    exact doesKeyExist_of_mem B e2 he2
  exact wrapInt_antisymm _ _ (hx1 hkB) (hx2 hkA)

/-! ## The header pattern: lemmas -/

theorem takeWhile_ne_append (c : Char) (a b : List Char) (h : c ∉ a) :
    (a ++ c :: b).takeWhile (fun x => decide (x ≠ c)) = a := by
  induction a with
  | nil => simp
  | cons x a ih =>
    have hx : x ≠ c := fun e => h (e ▸ List.mem_cons_self _ _)
    have ha : c ∉ a := fun e => h (List.mem_cons_of_mem _ e)
    have e := ih ha
    simp only [List.cons_append, List.takeWhile_cons, hx, ne_eq, not_false_eq_true,
      decide_True, if_true, e]

theorem dropWhile_ne_append (c : Char) (a b : List Char) (h : c ∉ a) :
    (a ++ c :: b).dropWhile (fun x => decide (x ≠ c)) = c :: b := by
  induction a with
  | nil => simp
  | cons x a ih =>
    have hx : x ≠ c := fun e => h (e ▸ List.mem_cons_self _ _)
    have ha : c ∉ a := fun e => h (List.mem_cons_of_mem _ e)
    have e := ih ha
    simp only [List.cons_append, List.dropWhile_cons, hx, ne_eq, not_false_eq_true,
      decide_True, if_true, e]

theorem not_mem_takeWhile_ne (c : Char) (l : List Char) :
    c ∉ l.takeWhile (fun x => decide (x ≠ c)) := by
  intro h
  have := List.mem_takeWhile_imp h
  simp at this

theorem matchHeaderAt_pattern (T N post : List Char) (h : validPair T N) :
    matchHeaderAt ('[' :: (T ++ ',' :: ' ' :: (N ++ ']' :: post))) = some (T, N) := by
  obtain ⟨hT, hTc, hN, hNb⟩ := h
  unfold matchHeaderAt
  simp only [dropWhile_ne_append ',' T _ hTc, takeWhile_ne_append ',' T _ hTc,
    dropWhile_ne_append ']' N _ hNb, takeWhile_ne_append ']' N _ hNb]
  simp [hT, hN]

theorem matchHeaderAt_some (cs g1 g2 : List Char) (h : matchHeaderAt cs = some (g1, g2)) :
    validPair g1 g2 ∧ ∃ post, cs = '[' :: (g1 ++ ',' :: ' ' :: (g2 ++ ']' :: post)) := by
  unfold matchHeaderAt at h
  split at h
  · rename_i t
    split at h
    · rename_i u hu
      split at h
      · rename_i post hp
        split at h
        · rename_i hne
          simp only [Option.some.injEq, Prod.mk.injEq] at h
          obtain ⟨h1, h2⟩ := h
          have et := List.takeWhile_append_dropWhile (fun c => decide (c ≠ ',')) t
          have eu := List.takeWhile_append_dropWhile (fun c => decide (c ≠ ']')) u
          rw [hu, h1] at et
          rw [hp, h2] at eu
          refine ⟨⟨?_, ?_, ?_, ?_⟩, post, ?_⟩
          · rw [← h1]
            exact hne.1
          · rw [← h1]
            exact not_mem_takeWhile_ne ',' t
          · rw [← h2]
            exact hne.2
          · rw [← h2]
            exact not_mem_takeWhile_ne ']' u
          · rw [eu, et]
        · simp at h
      · simp at h
    · simp at h
  · simp at h

theorem headerMatches_skip (n : Nat) (cs : List Char) :
    headerMatches n cs = headerMatches 0 (cs.drop n) := by
  induction cs generalizing n with
  | nil => simp [headerMatches]
  | cons c t ih =>
    cases n with
    | zero => rfl
    | succ n =>
      show headerMatches n t = headerMatches 0 (t.drop n)
      exact ih n

theorem headerMatches_of_some (c : Char) (t g1 g2 : List Char)
    (h : matchHeaderAt (c :: t) = some (g1, g2)) :
    headerMatches 0 (c :: t) =
      (g1, g2) :: headerMatches 0 (t.drop (g1.length + g2.length + 3)) := by
  rw [← headerMatches_skip]
  simp only [headerMatches, h]

theorem headerMatches_of_none (c : Char) (t : List Char)
    (h : matchHeaderAt (c :: t) = none) :
    headerMatches 0 (c :: t) = headerMatches 0 t := by
  simp only [headerMatches, h]

theorem headerMatches_cons (cs g1 g2 : List Char) (more : List (List Char × List Char))
    (h : headerMatches 0 cs = (g1, g2) :: more) :
    ∃ pre post, validPair g1 g2 ∧ cs = pre ++ (headerPattern g1 g2 ++ post) ∧
      more = headerMatches 0 post := by
  induction cs with
  | nil => simp [headerMatches] at h
  | cons c t ih =>
    cases hm : matchHeaderAt (c :: t) with
    | none =>
      rw [headerMatches_of_none c t hm] at h
      obtain ⟨pre, post, hv, ht, hmore⟩ := ih h
      exact ⟨c :: pre, post, hv, by rw [ht]; rfl, hmore⟩
    | some g =>
      obtain ⟨a, b⟩ := g
      rw [headerMatches_of_some c t a b hm] at h
      simp only [List.cons.injEq, Prod.mk.injEq] at h
      obtain ⟨⟨ha, hb⟩, hmore⟩ := h
      subst ha hb
      obtain ⟨hv, post, hcs⟩ := matchHeaderAt_some _ _ _ hm
      refine ⟨[], post, hv, ?_, ?_⟩
      · rw [hcs]
        simp [headerPattern]
      · rw [← hmore]
        have ht : t = a ++ ',' :: ' ' :: (b ++ ']' :: post) := by
          exact (List.cons.inj hcs).2
        have hl : a.length + b.length + 3 = (a ++ ',' :: ' ' :: (b ++ [']'])).length := by
          simp
          omega
        have ht2 : t = (a ++ ',' :: ' ' :: (b ++ [']'])) ++ post := by
          rw [ht]
          simp
        rw [hl, ht2, List.drop_left]

theorem headerPattern_append (T N post : List Char) :
    headerPattern T N ++ post = '[' :: (T ++ ',' :: ' ' :: (N ++ ']' :: post)) := by
  simp [headerPattern]

theorem headerOccurs_append_left (x cs : List Char) (h : headerOccurs cs) :
    headerOccurs (x ++ cs) := by
  obtain ⟨pre, T, N, post, hv, hcs⟩ := h
  exact ⟨x ++ pre, T, N, post, hv, by rw [hcs, List.append_assoc]⟩

theorem headerMatches_ne_nil_of_prefix (pre T N post : List Char) (hv : validPair T N) :
    headerMatches 0 (pre ++ (headerPattern T N ++ post)) ≠ [] := by
  induction pre with
  | nil =>
    rw [List.nil_append, headerPattern_append,
      headerMatches_of_some _ _ T N (matchHeaderAt_pattern T N post hv)]
    exact List.cons_ne_nil _ _
  | cons c pre ih =>
    cases hm : matchHeaderAt (c :: (pre ++ (headerPattern T N ++ post))) with
    | none =>
      rw [List.cons_append, headerMatches_of_none _ _ hm]
      exact ih
    | some g =>
      obtain ⟨a, b⟩ := g
      rw [List.cons_append, headerMatches_of_some _ _ a b hm]
      exact List.cons_ne_nil _ _

theorem headerMatches_ne_nil (cs : List Char) (h : headerOccurs cs) :
    headerMatches 0 cs ≠ [] := by
  obtain ⟨pre, T, N, post, hv, hcs⟩ := h
  rw [hcs]
  exact headerMatches_ne_nil_of_prefix pre T N post hv

theorem first_occurrence_le (c : Char) (a b a2 b2 : List Char)
    (h : a ++ c :: b = a2 ++ c :: b2) (hc : c ∉ a) : a.length ≤ a2.length := by
  rcases List.append_eq_append_iff.1 h with ⟨x, hx, _⟩ | ⟨x, hx, hx2⟩
  · rw [hx, List.length_append]
    omega
  · cases x with
    | nil =>
      rw [hx]
      simp
    | cons d x =>
      exfalso
      have hd : c = d := (List.cons.inj hx2).1
      apply hc
      rw [hx, hd]
      simp

theorem match_end_le (t g1 g2 P N y : List Char)
    (hm : matchHeaderAt ('[' :: t) = some (g1, g2))
    (ht : t = P ++ ',' :: ' ' :: (N ++ ']' :: y)) :
    g1.length + g2.length ≤ P.length + N.length := by
  obtain ⟨⟨_, hc1, _, hc2⟩, post, hcs⟩ := matchHeaderAt_some _ _ _ hm
  have ht1 : t = g1 ++ ',' :: ' ' :: (g2 ++ ']' :: post) := (List.cons.inj hcs).2
  have h1 : g1.length ≤ P.length :=
    first_occurrence_le ',' g1 _ P _ (by rw [← ht1, ← ht]) hc1
  have e1 : t.drop (g1.length + 2) = g2 ++ ']' :: post := by
    have : t = (g1 ++ [',', ' ']) ++ (g2 ++ ']' :: post) := by
      rw [ht1]
      simp
    rw [this]
    have hl : g1.length + 2 = (g1 ++ [',', ' ']).length := by simp
    rw [hl, List.drop_left]
  have e2 : t.drop (g1.length + 2) =
      (P ++ ',' :: ' ' :: N).drop (g1.length + 2) ++ ']' :: y := by
    have : t = (P ++ ',' :: ' ' :: N) ++ ']' :: y := by
      rw [ht]
      simp
    rw [this, List.drop_append_of_le_length]
    simp only [List.length_append, List.length_cons]
    omega
  have h2 := first_occurrence_le ']' g2 post _ y (by rw [← e1, ← e2]) hc2
  simp only [List.length_drop, List.length_append, List.length_cons] at h2
  omega

theorem two_matches_of_match (t g1 g2 P N y : List Char)
    (hm : matchHeaderAt ('[' :: t) = some (g1, g2))
    (ht : t = P ++ ',' :: ' ' :: (N ++ ']' :: y)) (hy : headerOccurs y) :
    2 ≤ (headerMatches 0 ('[' :: t)).length := by
  have hle := match_end_le t g1 g2 P N y hm ht
  rw [headerMatches_of_some _ _ g1 g2 hm]
  have e : t.drop (g1.length + g2.length + 3) =
      (P ++ ',' :: ' ' :: (N ++ [']'])).drop (g1.length + g2.length + 3) ++ y := by
    have : t = (P ++ ',' :: ' ' :: (N ++ [']'])) ++ y := by
      rw [ht]
      simp
    rw [this, List.drop_append_of_le_length]
    simp only [List.length_append, List.length_cons, List.length_nil]
    omega
  have hne := headerMatches_ne_nil _ (headerOccurs_append_left
    ((P ++ ',' :: ' ' :: (N ++ [']'])).drop (g1.length + g2.length + 3)) y hy)
  rw [← e] at hne
  have hpos := List.length_pos.2 hne
  simp only [List.length_cons]
  omega

theorem two_matches_of_prefix (pre T1 N1 y : List Char) (hv : validPair T1 N1)
    (hy : headerOccurs y) :
    2 ≤ (headerMatches 0 (pre ++ (headerPattern T1 N1 ++ y))).length := by
  induction pre with
  | nil =>
    rw [List.nil_append, headerPattern_append]
    exact two_matches_of_match _ T1 N1 T1 N1 y (matchHeaderAt_pattern T1 N1 y hv) rfl hy
  | cons c pre ih =>
    cases hm : matchHeaderAt (c :: (pre ++ (headerPattern T1 N1 ++ y))) with
    | none =>
      rw [List.cons_append, headerMatches_of_none _ _ hm]
      exact ih
    | some g =>
      obtain ⟨a, b⟩ := g
      obtain ⟨_, post, hcs⟩ := matchHeaderAt_some _ _ _ hm
      have hc : c = '[' := (List.cons.inj hcs).1
      subst hc
      rw [List.cons_append]
      apply two_matches_of_match _ a b (pre ++ '[' :: T1) N1 y hm _ hy
      rw [headerPattern_append]
      simp

theorem two_matches_of_twice (cs : List Char) (h : headerOccursTwice cs) :
    2 ≤ (headerMatches 0 cs).length := by
  obtain ⟨pre, T1, N1, mid, T2, N2, post, hv1, hv2, hcs⟩ := h
  rw [hcs]
  exact two_matches_of_prefix pre T1 N1 _ hv1 ⟨mid, T2, N2, post, hv2, rfl⟩

theorem headerOccurs_of_matches (cs : List Char) (h : headerMatches 0 cs ≠ []) :
    headerOccurs cs := by
  cases hm : headerMatches 0 cs with
  | nil => exact absurd hm h
  | cons g more =>
    obtain ⟨g1, g2⟩ := g
    obtain ⟨pre, post, hv, hcs, _⟩ := headerMatches_cons cs g1 g2 more hm
    exact ⟨pre, g1, g2, post, hv, hcs⟩

theorem twice_of_two_matches (cs : List Char) (h : 2 ≤ (headerMatches 0 cs).length) :
    headerOccursTwice cs := by
  cases hm : headerMatches 0 cs with
  | nil =>
    rw [hm] at h
    simp at h
  | cons g more =>
    obtain ⟨g1, g2⟩ := g
    obtain ⟨pre, post, hv, hcs, hmore⟩ := headerMatches_cons cs g1 g2 more hm
    have hne : headerMatches 0 post ≠ [] := by
      rw [← hmore]
      intro e
      rw [hm, e] at h
      simp at h
    obtain ⟨mid, T2, N2, post2, hv2, hp⟩ := headerOccurs_of_matches post hne
    exact ⟨pre, g1, g2, mid, T2, N2, post2, hv, hv2, by rw [hcs, hp]⟩

theorem parseShipTypeAndName_ok_iff (line : String) :
    (∃ r, parseShipTypeAndName line = .ok r) ↔ (headerMatches 0 line.data).length = 1 := by
  unfold parseShipTypeAndName
  cases hm : headerMatches 0 line.data with
  | nil => simp
  | cons g more =>
    obtain ⟨g1, g2⟩ := g
    cases more with
    | nil => simp
    | cons g3 more2 => simp

theorem parseShipTypeAndName_error_of_length (line : String)
    (h : (headerMatches 0 line.data).length ≠ 1) :
    ∃ msg, parseShipTypeAndName line = .error msg := by
  cases hp : parseShipTypeAndName line with
  | error msg => exact ⟨msg, rfl⟩
  | ok r => exact absurd ((parseShipTypeAndName_ok_iff line).1 ⟨r, hp⟩) h

/-! ## The header parser: claims C16 and C17 -/

/-- C16: the header parser extracts type and name from a bracketed pair.  For
a non-empty T without a comma and a non-empty N without a closing bracket,
`parseShipTypeAndName` of "[", T, ", ", N, "]" succeeds with shipType T and
shipName N. -/
theorem parseShipTypeAndName_pair (T N : String) (hT : T ≠ "") (hTc : ',' ∉ T.data)
    (hN : N ≠ "") (hNb : ']' ∉ N.data) :
    parseShipTypeAndName ("[" ++ T ++ ", " ++ N ++ "]") = .ok (T, N) := by
  have hv : validPair T.data N.data :=
    ⟨fun e => hT (String.ext e), hTc, fun e => hN (String.ext e), hNb⟩
  have hdata : ("[" ++ T ++ ", " ++ N ++ "]").data =
      '[' :: (T.data ++ ',' :: ' ' :: (N.data ++ ']' :: [])) := by
    simp [String.data_append]
  have hdrop : (T.data ++ ',' :: ' ' :: (N.data ++ ']' :: [])).drop
      (T.data.length + N.data.length + 3) = [] := by
    apply List.drop_eq_nil_of_le
    simp
    omega
  have hm : headerMatches 0 ("[" ++ T ++ ", " ++ N ++ "]").data = [(T.data, N.data)] := by
    rw [hdata, headerMatches_of_some _ _ T.data N.data (matchHeaderAt_pattern _ _ [] hv),
      hdrop]
    rfl
  unfold parseShipTypeAndName
  rw [hm]

/-- Witness of C16: the header line of the spec. -/
theorem parseShipTypeAndName_pair_witness :
    parseShipTypeAndName ("[" ++ "Caldari Raven" ++ ", " ++ "My Raven" ++ "]")
      = .ok ("Caldari Raven", "My Raven") :=
  parseShipTypeAndName_pair "Caldari Raven" "My Raven" (by decide) (by decide) (by decide)
    (by decide)

/-- C17: the header parser fails exactly when the line does not hold exactly
one bracketed "type, name" pair.  It fails on every line in which the pattern
does not occur, and on every line in which it occurs at two places that do not
overlap; it succeeds on every other line, that is when the pattern occurs and
no two occurrences are apart from each other. -/
theorem parseShipTypeAndName_fails_iff :
    (∀ line : String, ¬ headerOccurs line.data →
      ∃ msg, parseShipTypeAndName line = .error msg) ∧
    (∀ line : String, headerOccursTwice line.data →
      ∃ msg, parseShipTypeAndName line = .error msg) ∧
    (∀ line : String, headerOccurs line.data → ¬ headerOccursTwice line.data →
      ∃ r, parseShipTypeAndName line = .ok r) := by
  refine ⟨?_, ?_, ?_⟩
  · intro line h
    apply parseShipTypeAndName_error_of_length
    intro hl
    apply h
    apply headerOccurs_of_matches
    intro e
    rw [e] at hl
    simp at hl
  · intro line h
    apply parseShipTypeAndName_error_of_length
    have := two_matches_of_twice _ h
    omega
  · intro line h1 h2
    rw [parseShipTypeAndName_ok_iff]
    have hpos := List.length_pos.2 (headerMatches_ne_nil _ h1)
    by_contra hne
    exact h2 (twice_of_two_matches _ (by omega))

/-- Witness of C17: "Raven", "[Raven]" and "[A,B]" hold no pair and fail,
"[A, B][C, D]" holds two and fails, "[Caldari Raven, My Raven]" holds one and
parses. -/
theorem parseShipTypeAndName_fails_iff_witness :
    (∃ msg, parseShipTypeAndName "Raven" = .error msg) ∧
    (∃ msg, parseShipTypeAndName "[Raven]" = .error msg) ∧
    (∃ msg, parseShipTypeAndName "[A,B]" = .error msg) ∧
    (∃ msg, parseShipTypeAndName "[A, B][C, D]" = .error msg) ∧
    (∃ r, parseShipTypeAndName "[Caldari Raven, My Raven]" = .ok r) :=
  ⟨parseShipTypeAndName_fails_iff.1 "Raven"
      (fun h => headerMatches_ne_nil _ h (by decide)),
   parseShipTypeAndName_fails_iff.1 "[Raven]"
      (fun h => headerMatches_ne_nil _ h (by decide)),
   parseShipTypeAndName_fails_iff.1 "[A,B]"
      (fun h => headerMatches_ne_nil _ h (by decide)),
   parseShipTypeAndName_fails_iff.2.1 "[A, B][C, D]"
      ⟨[], ['A'], ['B'], [], ['C'], ['D'], [],
        ⟨by decide, by decide, by decide, by decide⟩,
        ⟨by decide, by decide, by decide, by decide⟩, by decide⟩,
   parseShipTypeAndName_fails_iff.2.2 "[Caldari Raven, My Raven]"
      ⟨[], "Caldari Raven".data, "My Raven".data, [],
        ⟨by decide, by decide, by decide, by decide⟩, by decide⟩
      (fun h => absurd (two_matches_of_twice _ h) (by decide))⟩

/-! ## Additive insert: lookups after accumulation -/

theorem index_assign (m : SlotMap) (n : String) (v : Int) (k : String) :
    index (assign m n v) k = if k = n then v else index m k := by
  induction m with
  | nil =>
    by_cases hk : k = n
    · simp [assign, index, hk]
    · have hk2 : ¬ n = k := fun e => hk e.symm
      simp [assign, index, hk, hk2]
  | cons e rest ih =>
    obtain ⟨k0, v0⟩ := e
    by_cases h0 : k0 = n
    · subst h0
      by_cases hk : k = k0
      · simp [assign, index, hk]
      · have hk2 : ¬ k0 = k := fun e => hk e.symm
        simp [assign, index, hk, hk2]
    · by_cases hk : k0 = k
      · subst hk
        simp [assign, index, h0]
      · simp only [assign, h0, if_false, index, hk, ih]

theorem doesKeyExist_assign (m : SlotMap) (n : String) (v : Int) (k : String) :
    doesKeyExist (assign m n v) k = (doesKeyExist m k || decide (k = n)) := by
  induction m with
  | nil =>
    by_cases hk : k = n
    · simp [assign, doesKeyExist, hk]
    · have hk2 : ¬ n = k := fun e => hk e.symm
      simp [assign, doesKeyExist, hk, hk2]
  | cons e rest ih =>
    obtain ⟨k0, v0⟩ := e
    by_cases h0 : k0 = n
    · subst h0
      by_cases hk : k0 = k
      · simp [assign, doesKeyExist, hk]
      · have hk2 : ¬ k = k0 := fun e => hk e.symm
        simp [assign, doesKeyExist, hk, hk2]
    · by_cases hk : k0 = k
      · subst hk
        simp [assign, doesKeyExist, h0]
      · simp only [assign, h0, if_false, doesKeyExist, hk, ih]

theorem keys_assign (m : SlotMap) (n : String) (v : Int) :
    (assign m n v).keys = if doesKeyExist m n then m.keys else m.keys ++ [n] := by
  induction m with
  | nil => simp [assign, doesKeyExist, SlotMap.keys]
  | cons e rest ih =>
    obtain ⟨k0, v0⟩ := e
    by_cases h0 : k0 = n
    · simp [assign, doesKeyExist, SlotMap.keys, h0]
    · have ih2 : List.map Prod.fst (assign rest n v) =
          if doesKeyExist rest n then List.map Prod.fst rest
          else List.map Prod.fst rest ++ [n] := ih
      simp only [assign, h0, if_false, doesKeyExist, SlotMap.keys, List.map_cons, ih2]
      split <;> simp

theorem WF_assign (m : SlotMap) (n : String) (v : Int) (h : m.WF) : (assign m n v).WF := by
  have hk := keys_assign m n v
  unfold SlotMap.WF
  unfold SlotMap.keys at hk
  rw [hk]
  cases hd : doesKeyExist m n
  · have hn : n ∉ m.keys := by
      intro hmem
      rw [← doesKeyExist_iff_mem_keys, hd] at hmem
      exact Bool.noConfusion hmem
    simp only [Bool.false_eq_true, if_false]
    rw [List.nodup_append]
    refine ⟨h, List.nodup_singleton n, ?_⟩
    intro a ha hb
    rw [List.mem_singleton] at hb
    rw [hb] at ha
    exact hn ha
  · simpa using h

theorem WF_updateMap (m : SlotMap) (n : String) (a : Int) (h : m.WF) :
    (updateMap m n a).WF := by
  unfold updateMap
  split
  · exact WF_assign m n _ h
  · exact WF_assign m n _ h

theorem doesKeyExist_updateMap (m : SlotMap) (n : String) (a : Int) (k : String) :
    doesKeyExist (updateMap m n a) k = (doesKeyExist m k || decide (k = n)) := by
  unfold updateMap
  split
  · exact doesKeyExist_assign m n _ k
  · exact doesKeyExist_assign m n _ k

theorem index_updateMap (m : SlotMap) (n : String) (a : Int) (k : String)
    (hr : minInt ≤ index m n + a ∧ index m n + a ≤ maxInt) :
    index (updateMap m n a) k = index m k + (if n = k then a else 0) := by
  unfold updateMap
  cases hd : doesKeyExist m n
  · simp only [Bool.false_eq_true, if_false, index_assign]
    by_cases hk : k = n
    · subst hk
      simp [index_of_not_exists m k hd]
    · have hk2 : ¬ n = k := fun e => hk e.symm
      simp [hk, hk2]
  · simp only [if_true, index_assign, wrapInt_of_range _ hr.1 hr.2]
    by_cases hk : k = n
    · subst hk
      simp
    · have hk2 : ¬ n = k := fun e => hk e.symm
      simp [hk, hk2]

theorem accumulate_WF (items : List (String × Int)) (m : SlotMap) (h : m.WF) :
    (accumulate items m).WF := by
  induction items generalizing m with
  | nil => exact h
  | cons it rest ih => exact ih _ (WF_updateMap m it.1 it.2 h)

theorem accumulate_exists (items : List (String × Int)) (m : SlotMap) (k : String) :
    doesKeyExist (accumulate items m) k =
      (doesKeyExist m k || decide (k ∈ items.map Prod.fst)) := by
  induction items generalizing m with
  | nil => simp [accumulate]
  | cons it rest ih =>
    show doesKeyExist (accumulate rest (updateMap m it.1 it.2)) k = _
    rw [ih, doesKeyExist_updateMap]
    by_cases hk : k = it.1
    · simp [hk]
    · have hb : (k == it.1) = false := by simp [hk]
      simp [hk, hb]

theorem updateMap_bounds (m : SlotMap) (n : String) (a t : Int)
    (hm : ∀ e ∈ m, 0 ≤ e.2 ∧ e.2 ≤ t) (ht0 : 0 ≤ t) (ha : 0 ≤ a) (ht : t + a ≤ maxInt) :
    ∀ e ∈ updateMap m n a, 0 ≤ e.2 ∧ e.2 ≤ t + a := by
  intro e he
  rcases mem_updateMap _ _ _ _ he with h1 | h1 | ⟨hmem, h1⟩
  · have := hm e h1
    omega
  · rw [h1]
    simp only
    omega
  · have hidx := hm _ hmem
    simp only at hidx
    have hw : wrapInt (index m n + a) = index m n + a := by
      apply wrapInt_of_range
      · unfold minInt
        omega
      · omega
    rw [h1, hw]
    simp only
    omega

theorem sum_amounts_nonneg_of_nonneg (items : List (String × Int))
    (hi : ∀ it ∈ items, 0 ≤ it.2) : 0 ≤ (items.map Prod.snd).sum := by
  induction items with
  | nil => simp
  | cons it rest ih =>
    have h1 := hi it (List.mem_cons_self _ _)
    have h2 := ih (fun it2 h => hi it2 (List.mem_cons_of_mem _ h))
    simp only [List.map_cons, List.sum_cons]
    omega

theorem accumulate_index (items : List (String × Int)) (m : SlotMap) (t : Int)
    (hm : ∀ e ∈ m, 0 ≤ e.2 ∧ e.2 ≤ t) (ht : 0 ≤ t) (hi : ∀ it ∈ items, 0 ≤ it.2)
    (hsum : t + (items.map Prod.snd).sum ≤ maxInt) (k : String) :
    index (accumulate items m) k = index m k + amountFor k items := by
  induction items generalizing m t with
  | nil => simp [accumulate, amountFor]
  | cons it rest ih =>
    have hpos := hi it (List.mem_cons_self _ _)
    have hrest : ∀ it2 ∈ rest, 0 ≤ it2.2 := fun it2 h => hi it2 (List.mem_cons_of_mem _ h)
    have hnn := sum_amounts_nonneg_of_nonneg rest hrest
    simp only [List.map_cons, List.sum_cons] at hsum
    have hidx : 0 ≤ index m it.1 ∧ index m it.1 ≤ t := by
      cases hd : doesKeyExist m it.1
      · rw [index_of_not_exists m _ hd]
        omega
      · exact hm _ (index_mem m _ hd)
    have hb := updateMap_bounds m it.1 it.2 t hm ht hpos (by omega)
    have hstep := ih (updateMap m it.1 it.2) (t + it.2) hb (by omega) hrest (by omega)
    show index (accumulate rest (updateMap m it.1 it.2)) k = _
    rw [hstep, index_updateMap m it.1 it.2 k
      ⟨by unfold minInt; omega, by omega⟩]
    by_cases hk : it.1 = k
    · simp [amountFor, hk]
      omega
    · simp [amountFor, hk]

theorem amountFor_slotItems (block : List String) (k : String) :
    amountFor k (slotItems block) = (block.count k : Int) := by
  induction block with
  | nil => rfl
  | cons l rest ih =>
    have ih2 : ((List.filter (fun it => decide (it.1 = k)) (slotItems rest)).map
        Prod.snd).sum = (rest.count k : Int) := ih
    by_cases hk : l = k
    · subst hk
      simp only [amountFor, slotItems, List.map_cons, List.filter_cons, decide_True, if_true,
        List.sum_cons, List.count_cons_self]
      rw [show List.map (fun l => (l, (1 : Int))) rest = slotItems rest from rfl, ih2]
      push_cast
      omega
    · have hk2 : (l == k) = false := by simp [hk]
      simp only [amountFor, slotItems, List.map_cons, List.filter_cons, hk, decide_False,
        Bool.false_eq_true, if_false, List.count_cons, hk2]
      rw [show List.map (fun l => (l, (1 : Int))) rest = slotItems rest from rfl, ih2]
      simp

theorem amountFor_cargoItems (block : List String) (k : String) :
    amountFor k (cargoItems block) =
      ((block.filter (fun l => decide ((parseCargoItem l).name = k))).map
        (fun l => (parseCargoItem l).amount)).sum := by
  induction block with
  | nil => rfl
  | cons l rest ih =>
    have ih2 : ((List.filter (fun it => decide (it.1 = k)) (cargoItems rest)).map
        Prod.snd).sum = _ := ih
    by_cases hk : (parseCargoItem l).name = k
    · simp only [amountFor, cargoItems, List.map_cons, List.filter_cons, hk, decide_True,
        if_true, List.sum_cons]
      rw [show List.map (fun l => ((parseCargoItem l).name, (parseCargoItem l).amount)) rest
        = cargoItems rest from rfl, ih2]
    · simp only [amountFor, cargoItems, List.map_cons, List.filter_cons, hk, decide_False,
        Bool.false_eq_true, if_false]
      rw [show List.map (fun l => ((parseCargoItem l).name, (parseCargoItem l).amount)) rest
        = cargoItems rest from rfl, ih2]

theorem slots_countsLines (block : List String) (hlen : (block.length : Int) ≤ maxInt) :
    countsLines (accumulate (slotItems block) []) block := by
  refine ⟨accumulate_WF _ [] List.nodup_nil, ?_, ?_⟩
  · intro k
    rw [← doesKeyExist_iff_mem_keys, accumulate_exists]
    simp [doesKeyExist, slotItems, Function.comp_def]
  · intro k
    rw [accumulate_index (slotItems block) [] 0 (by simp) (le_refl 0)
      (fun it h => (slotItems_pos block it h).le) (by rw [slotItems_sum]; omega) k,
      amountFor_slotItems]
    simp [index]

theorem cargo_sumsAmounts (block : List String)
    (hsum : (block.map (fun l => (parseCargoItem l).amount)).sum ≤ maxInt) :
    sumsAmounts (accumulate (cargoItems block) []) block := by
  have hi : ∀ it ∈ cargoItems block, 0 ≤ it.2 := by
    intro it h
    simp only [cargoItems, List.mem_map] at h
    obtain ⟨l, _, e1⟩ := h
    rw [← e1]
    exact parseCargoItem_amount_nonneg l
  have hs : ((cargoItems block).map Prod.snd).sum
      = (block.map (fun l => (parseCargoItem l).amount)).sum := by
    simp [cargoItems, Function.comp_def]
  refine ⟨accumulate_WF _ [] List.nodup_nil, ?_, ?_⟩
  · intro k
    rw [← doesKeyExist_iff_mem_keys, accumulate_exists]
    simp [doesKeyExist, cargoItems]
  · intro k
    rw [accumulate_index (cargoItems block) [] 0 (by simp) (le_refl 0) hi
      (by rw [hs]; omega) k, amountFor_cargoItems]
    simp [index]

/-! ## The parser on well-formed and on truncated inputs -/

theorem readSlots_block (msg : String) (block rest : List String) (m : SlotMap)
    (hb : ∀ l ∈ block, itemLine l) :
    readSlots msg (block ++ "" :: rest) m =
      .ok (accumulate (slotItems (delivered block)) m, rest) := by
  induction block generalizing m with
  | nil => rfl
  | cons l t ih =>
    obtain ⟨h1, h2⟩ := hb l (List.mem_cons_self _ _)
    have hbig : ¬ maxScanTokenSize ≤ l.utf8ByteSize := not_le.2 h1
    have hl : ¬ (dropCR l).length = 0 := fun e => h2 ((length_eq_zero_iff _).1 e)
    simp only [List.cons_append, readSlots, hbig, hl, if_false]
    exact ih _ (fun l2 h2 => hb l2 (List.mem_cons_of_mem _ h2))

theorem readSlots_eof (msg : String) (block : List String) (m : SlotMap)
    (hb : ∀ l ∈ block, dropCR l ≠ "") :
    readSlots msg block m = .error ["ERROR myReadLine false", msg] := by
  induction block generalizing m with
  | nil => rfl
  | cons l t ih =>
    by_cases hbig : maxScanTokenSize ≤ l.utf8ByteSize
    · simp only [readSlots, hbig, if_true]
    · have hl : ¬ (dropCR l).length = 0 := fun e =>
        hb l (List.mem_cons_self _ _) ((length_eq_zero_iff _).1 e)
      simp only [readSlots, hbig, hl, if_false]
      exact ih _ (fun l2 h2 => hb l2 (List.mem_cons_of_mem _ h2))

theorem readSlots_too_long (msg : String) (block : List String) (raw : String)
    (rest : List String) (m : SlotMap) (hb : ∀ l ∈ block, itemLine l)
    (hlong : maxScanTokenSize ≤ raw.utf8ByteSize) :
    readSlots msg (block ++ raw :: rest) m = .error ["ERROR myReadLine false", msg] := by
  induction block generalizing m with
  | nil => simp only [List.nil_append, readSlots, hlong, if_true]
  | cons l t ih =>
    obtain ⟨h1, h2⟩ := hb l (List.mem_cons_self _ _)
    have hbig : ¬ maxScanTokenSize ≤ l.utf8ByteSize := not_le.2 h1
    have hl : ¬ (dropCR l).length = 0 := fun e => h2 ((length_eq_zero_iff _).1 e)
    simp only [List.cons_append, readSlots, hbig, hl, if_false]
    exact ih _ (fun l2 h2 => hb l2 (List.mem_cons_of_mem _ h2))

theorem readCargoSlots_block (msg : String) (block rest : List String) (m : SlotMap)
    (hb : ∀ l ∈ block, itemLine l) :
    readCargoSlots msg (block ++ "" :: rest) m =
      .ok (accumulate (cargoItems (delivered block)) m, rest) := by
  induction block generalizing m with
  | nil => rfl
  | cons l t ih =>
    obtain ⟨h1, h2⟩ := hb l (List.mem_cons_self _ _)
    have hbig : ¬ maxScanTokenSize ≤ l.utf8ByteSize := not_le.2 h1
    have hl : ¬ (dropCR l).length = 0 := fun e => h2 ((length_eq_zero_iff _).1 e)
    simp only [List.cons_append, readCargoSlots, hbig, hl, if_false]
    exact ih _ (fun l2 h2 => hb l2 (List.mem_cons_of_mem _ h2))

theorem readCargoSlots_eof (msg : String) (block : List String) (m : SlotMap)
    (hb : ∀ l ∈ block, dropCR l ≠ "") :
    readCargoSlots msg block m = .error ["ERROR myReadLine false", msg] := by
  induction block generalizing m with
  | nil => rfl
  | cons l t ih =>
    by_cases hbig : maxScanTokenSize ≤ l.utf8ByteSize
    · simp only [readCargoSlots, hbig, if_true]
    · have hl : ¬ (dropCR l).length = 0 := fun e =>
        hb l (List.mem_cons_self _ _) ((length_eq_zero_iff _).1 e)
      simp only [readCargoSlots, hbig, hl, if_false]
      exact ih _ (fun l2 h2 => hb l2 (List.mem_cons_of_mem _ h2))

theorem readCargoSlots_too_long (msg : String) (block : List String) (raw : String)
    (rest : List String) (m : SlotMap) (hb : ∀ l ∈ block, itemLine l)
    (hlong : maxScanTokenSize ≤ raw.utf8ByteSize) :
    readCargoSlots msg (block ++ raw :: rest) m =
      .error ["ERROR myReadLine false", msg] := by
  induction block generalizing m with
  | nil => simp only [List.nil_append, readCargoSlots, hlong, if_true]
  | cons l t ih =>
    obtain ⟨h1, h2⟩ := hb l (List.mem_cons_self _ _)
    have hbig : ¬ maxScanTokenSize ≤ l.utf8ByteSize := not_le.2 h1
    have hl : ¬ (dropCR l).length = 0 := fun e => h2 ((length_eq_zero_iff _).1 e)
    simp only [List.cons_append, readCargoSlots, hbig, hl, if_false]
    exact ih _ (fun l2 h2 => hb l2 (List.mem_cons_of_mem _ h2))

theorem readBlankLines_blank (rest : List String) :
    readBlankLines 2 ("" :: "" :: rest) = .ok rest := rfl

theorem itemLine_of (block : List String) (h1 : ∀ l ∈ block, dropCR l ≠ "")
    (h2 : ∀ l ∈ block, scannable l) : ∀ l ∈ block, itemLine l :=
  fun l hl => ⟨h2 l hl, h1 l hl⟩

theorem utf8ByteSize_replicate (n : Nat) :
    (String.mk (List.replicate n 'a')).utf8ByteSize = n := by
  induction n with
  | zero => rfl
  | succ n ih =>
    show String.utf8ByteSize.go (List.replicate (n + 1) 'a') = n + 1
    rw [List.replicate_succ]
    show String.utf8ByteSize.go (List.replicate n 'a') + 'a'.utf8Size = n + 1
    have e : String.utf8ByteSize.go (List.replicate n 'a') = n := ih
    rw [e]
    rfl

theorem dropCR_blank_size (raw : String) (h : dropCR raw = "") :
    ¬ maxScanTokenSize ≤ raw.utf8ByteSize := by
  obtain ⟨cs⟩ := raw
  cases cs with
  | nil => decide
  | cons c t =>
    cases t with
    | nil =>
      unfold dropCR at h
      split at h
      · rename_i hc
        have hc2 : c = '\r' := by simpa using hc
        subst hc2
        decide
      · exact absurd (congrArg String.data h) (List.cons_ne_nil _ _)
    | cons d t2 =>
      exfalso
      unfold dropCR at h
      split at h
      · exact absurd (congrArg String.data h) (by simp)
      · exact absurd (congrArg String.data h) (List.cons_ne_nil _ _)

theorem readInFit_fitLines (h t n : String) (L M H R D C : List String)
    (hh0 : scannable h) (hh : parseShipTypeAndName (dropCR h) = .ok (t, n))
    (hL : ∀ l ∈ L, itemLine l) (hM : ∀ l ∈ M, itemLine l) (hH : ∀ l ∈ H, itemLine l)
    (hR : ∀ l ∈ R, itemLine l) (hD : ∀ l ∈ D, itemLine l) (hC : ∀ l ∈ C, itemLine l) :
    readInFit (fitLines h L M H R D C) =
      .ok { shipName := n, shipType := t,
            lowSlots := accumulate (slotItems (delivered L)) [],
            midSlots := accumulate (slotItems (delivered M)) [],
            highSlots := accumulate (slotItems (delivered H)) [],
            rigs := accumulate (slotItems (delivered R)) [],
            drones := accumulate (cargoItems (delivered D)) [],
            cargo := accumulate (cargoItems (delivered C)) [] } := by
  have hbig : ¬ maxScanTokenSize ≤ h.utf8ByteSize := not_le.2 hh0
  simp only [fitLines, throughDrones, throughRigs, throughHigh, throughMid, throughLow,
    readInFit, myReadLine, hbig, if_false, hh, readSlots_block _ _ _ _ hL,
    readSlots_block _ _ _ _ hM, readSlots_block _ _ _ _ hH, readSlots_block _ _ _ _ hR,
    readBlankLines_blank, readCargoSlots_block _ _ _ _ hD, readCargoSlots_block _ _ _ _ hC]

theorem readInFit_eof_cargo (h t n : String) (L M H R D C : List String)
    (hh0 : scannable h) (hh : parseShipTypeAndName (dropCR h) = .ok (t, n))
    (hL : ∀ l ∈ L, itemLine l) (hM : ∀ l ∈ M, itemLine l) (hH : ∀ l ∈ H, itemLine l)
    (hR : ∀ l ∈ R, itemLine l) (hD : ∀ l ∈ D, itemLine l) (hC : ∀ l ∈ C, dropCR l ≠ "") :
    readInFit (throughDrones h L M H R D C) =
      .error ["ERROR myReadLine false", "Error Reading Cargo"] := by
  have hbig : ¬ maxScanTokenSize ≤ h.utf8ByteSize := not_le.2 hh0
  simp only [throughDrones, throughRigs, throughHigh, throughMid, throughLow,
    readInFit, myReadLine, hbig, if_false, hh, readSlots_block _ _ _ _ hL,
    readSlots_block _ _ _ _ hM, readSlots_block _ _ _ _ hH, readSlots_block _ _ _ _ hR,
    readBlankLines_blank, readCargoSlots_block _ _ _ _ hD, readCargoSlots_eof _ _ _ hC]

theorem readInFit_eof_drones (h t n : String) (L M H R D : List String)
    (hh0 : scannable h) (hh : parseShipTypeAndName (dropCR h) = .ok (t, n))
    (hL : ∀ l ∈ L, itemLine l) (hM : ∀ l ∈ M, itemLine l) (hH : ∀ l ∈ H, itemLine l)
    (hR : ∀ l ∈ R, itemLine l) (hD : ∀ l ∈ D, dropCR l ≠ "") :
    readInFit (throughRigs h L M H R ("" :: "" :: D)) =
      .error ["ERROR myReadLine false", "Error Reading Drones"] := by
  have hbig : ¬ maxScanTokenSize ≤ h.utf8ByteSize := not_le.2 hh0
  simp only [throughRigs, throughHigh, throughMid, throughLow,
    readInFit, myReadLine, hbig, if_false, hh, readSlots_block _ _ _ _ hL,
    readSlots_block _ _ _ _ hM, readSlots_block _ _ _ _ hH, readSlots_block _ _ _ _ hR,
    readBlankLines_blank, readCargoSlots_eof _ _ _ hD]

theorem readInFit_eof_rigs (h t n : String) (L M H R : List String)
    (hh0 : scannable h) (hh : parseShipTypeAndName (dropCR h) = .ok (t, n))
    (hL : ∀ l ∈ L, itemLine l) (hM : ∀ l ∈ M, itemLine l) (hH : ∀ l ∈ H, itemLine l)
    (hR : ∀ l ∈ R, dropCR l ≠ "") :
    readInFit (throughHigh h L M H R) =
      .error ["ERROR myReadLine false", "Error Reading Rigs"] := by
  have hbig : ¬ maxScanTokenSize ≤ h.utf8ByteSize := not_le.2 hh0
  simp only [throughHigh, throughMid, throughLow,
    readInFit, myReadLine, hbig, if_false, hh, readSlots_block _ _ _ _ hL,
    readSlots_block _ _ _ _ hM, readSlots_block _ _ _ _ hH, readSlots_eof _ _ _ hR]

theorem readInFit_eof_high (h t n : String) (L M H : List String)
    (hh0 : scannable h) (hh : parseShipTypeAndName (dropCR h) = .ok (t, n))
    (hL : ∀ l ∈ L, itemLine l) (hM : ∀ l ∈ M, itemLine l) (hH : ∀ l ∈ H, dropCR l ≠ "") :
    readInFit (throughMid h L M H) =
      .error ["ERROR myReadLine false", "Error Reading High Slots"] := by
  have hbig : ¬ maxScanTokenSize ≤ h.utf8ByteSize := not_le.2 hh0
  simp only [throughMid, throughLow,
    readInFit, myReadLine, hbig, if_false, hh, readSlots_block _ _ _ _ hL,
    readSlots_block _ _ _ _ hM, readSlots_eof _ _ _ hH]

theorem readInFit_eof_mid (h t n : String) (L M : List String)
    (hh0 : scannable h) (hh : parseShipTypeAndName (dropCR h) = .ok (t, n))
    (hL : ∀ l ∈ L, itemLine l) (hM : ∀ l ∈ M, dropCR l ≠ "") :
    readInFit (throughLow h L M) =
      .error ["ERROR myReadLine false", "Error Reading Mid Slots"] := by
  have hbig : ¬ maxScanTokenSize ≤ h.utf8ByteSize := not_le.2 hh0
  simp only [throughLow,
    readInFit, myReadLine, hbig, if_false, hh, readSlots_block _ _ _ _ hL,
    readSlots_eof _ _ _ hM]

theorem readInFit_eof_low (h t n : String) (L : List String)
    (hh0 : scannable h) (hh : parseShipTypeAndName (dropCR h) = .ok (t, n))
    (hL : ∀ l ∈ L, dropCR l ≠ "") :
    readInFit (h :: L) = .error ["ERROR myReadLine false", "Error Reading Low Slots"] := by
  have hbig : ¬ maxScanTokenSize ≤ h.utf8ByteSize := not_le.2 hh0
  simp only [readInFit, myReadLine, hbig, if_false, hh, readSlots_eof _ _ _ hL]

theorem readInFit_low_too_long (h t n : String) (L : List String) (raw : String)
    (rest : List String)
    (hh0 : scannable h) (hh : parseShipTypeAndName (dropCR h) = .ok (t, n))
    (hL : ∀ l ∈ L, itemLine l) (hlong : maxScanTokenSize ≤ raw.utf8ByteSize) :
    readInFit (h :: (L ++ raw :: rest)) =
      .error ["ERROR myReadLine false", "Error Reading Low Slots"] := by
  have hbig : ¬ maxScanTokenSize ≤ h.utf8ByteSize := not_le.2 hh0
  simp only [readInFit, myReadLine, hbig, if_false, hh,
    readSlots_too_long _ _ _ _ _ hL hlong]

theorem readInFit_cargo_too_long (h t n : String) (L M H R D C : List String)
    (raw : String) (rest : List String)
    (hh0 : scannable h) (hh : parseShipTypeAndName (dropCR h) = .ok (t, n))
    (hL : ∀ l ∈ L, itemLine l) (hM : ∀ l ∈ M, itemLine l) (hH : ∀ l ∈ H, itemLine l)
    (hR : ∀ l ∈ R, itemLine l) (hD : ∀ l ∈ D, itemLine l) (hC : ∀ l ∈ C, itemLine l)
    (hlong : maxScanTokenSize ≤ raw.utf8ByteSize) :
    readInFit (throughDrones h L M H R D (C ++ raw :: rest)) =
      .error ["ERROR myReadLine false", "Error Reading Cargo"] := by
  have hbig : ¬ maxScanTokenSize ≤ h.utf8ByteSize := not_le.2 hh0
  simp only [throughDrones, throughRigs, throughHigh, throughMid, throughLow,
    readInFit, myReadLine, hbig, if_false, hh, readSlots_block _ _ _ _ hL,
    readSlots_block _ _ _ _ hM, readSlots_block _ _ _ _ hH, readSlots_block _ _ _ _ hR,
    readBlankLines_blank, readCargoSlots_block _ _ _ _ hD,
    readCargoSlots_too_long _ _ _ _ _ hC hlong]

theorem readInFit_separator (h t n : String) (L M H R tail : List String)
    (hh0 : scannable h) (hh : parseShipTypeAndName (dropCR h) = .ok (t, n))
    (hL : ∀ l ∈ L, itemLine l) (hM : ∀ l ∈ M, itemLine l) (hH : ∀ l ∈ H, itemLine l)
    (hR : ∀ l ∈ R, itemLine l) (printed : List String)
    (hb : readBlankLines 2 tail = .error printed) :
    readInFit (throughRigs h L M H R tail) = .error printed := by
  have hbig : ¬ maxScanTokenSize ≤ h.utf8ByteSize := not_le.2 hh0
  simp only [throughRigs, throughHigh, throughMid, throughLow,
    readInFit, myReadLine, hbig, if_false, hh, readSlots_block _ _ _ _ hL,
    readSlots_block _ _ _ _ hM, readSlots_block _ _ _ _ hH, readSlots_block _ _ _ _ hR, hb]

theorem readBlankLines_one (a : String) (rest : List String) (n : Nat) :
    (dropCR a = "" ∧ readBlankLines (n + 1) (a :: rest) = readBlankLines n rest) ∨
    (dropCR a ≠ "" ∧
      (readBlankLines (n + 1) (a :: rest)
          = .error ["ERROR myReadLine false", "Error Reading Drones"] ∨
       readBlankLines (n + 1) (a :: rest) = .error ["Error Reading Drones"])) := by
  by_cases hbig : maxScanTokenSize ≤ a.utf8ByteSize
  · right
    refine ⟨fun e => dropCR_blank_size a e hbig, Or.inl ?_⟩
    simp [readBlankLines, myReadLine, hbig]
  · by_cases hl : (dropCR a).length = 0
    · left
      refine ⟨(length_eq_zero_iff _).1 hl, ?_⟩
      simp [readBlankLines, myReadLine, hbig, hl]
    · right
      refine ⟨fun e => hl ((length_eq_zero_iff _).2 e), Or.inr ?_⟩
      simp [readBlankLines, myReadLine, hbig, hl]

theorem readBlankLines_two (tail : List String) :
    (∃ a b rest, tail = a :: b :: rest ∧ dropCR a = "" ∧ dropCR b = "" ∧
      readBlankLines 2 tail = .ok rest) ∨
    ((¬ ∃ a b rest, tail = a :: b :: rest ∧ dropCR a = "" ∧ dropCR b = "") ∧
      (readBlankLines 2 tail = .error ["ERROR myReadLine false", "Error Reading Drones"] ∨
       readBlankLines 2 tail = .error ["Error Reading Drones"])) := by
  cases tail with
  | nil =>
    right
    exact ⟨by simp, Or.inl rfl⟩
  | cons a t1 =>
    rcases readBlankLines_one a t1 1 with ⟨ha, hstep⟩ | ⟨ha, herr⟩
    · cases t1 with
      | nil =>
        right
        refine ⟨by simp, Or.inl ?_⟩
        rw [hstep]
        rfl
      | cons b t2 =>
        rcases readBlankLines_one b t2 0 with ⟨hb, hstep2⟩ | ⟨hb, herr2⟩
        · left
          refine ⟨a, b, t2, rfl, ha, hb, ?_⟩
          rw [hstep, hstep2]
          rfl
        · right
          refine ⟨?_, ?_⟩
          · rintro ⟨a2, b2, rest, hr, _, hb2⟩
            simp only [List.cons.injEq] at hr
            rw [← hr.2.1] at hb2
            exact hb hb2
          · rw [hstep]
            exact herr2
    · right
      refine ⟨?_, herr⟩
      rintro ⟨a2, b2, rest, hr, ha2, _⟩
      simp only [List.cons.injEq] at hr
      rw [← hr.1] at ha2
      exact ha ha2

theorem sectionLines_block (block rest : List String) (hb : ∀ l ∈ block, l ≠ "") :
    sectionLines (block ++ "" :: rest) = block := by
  induction block with
  | nil => exact sectionLines_cons_blank rest
  | cons l t ih =>
    rw [List.cons_append, sectionLines_cons l _ (hb l (List.mem_cons_self _ _)),
      ih (fun l2 h2 => hb l2 (List.mem_cons_of_mem _ h2))]

theorem afterSection_block (block rest : List String) (hb : ∀ l ∈ block, l ≠ "") :
    afterSection (block ++ "" :: rest) = rest := by
  induction block with
  | nil => exact afterSection_cons_blank rest
  | cons l t ih =>
    rw [List.cons_append, afterSection_cons l _ (hb l (List.mem_cons_self _ _)),
      ih (fun l2 h2 => hb l2 (List.mem_cons_of_mem _ h2))]

theorem delivered_ne_blank (block : List String) (hb : ∀ l ∈ block, dropCR l ≠ "") :
    ∀ l ∈ delivered block, l ≠ "" := by
  intro l hl
  simp only [delivered, List.mem_map] at hl
  obtain ⟨raw, hraw, e⟩ := hl
  rw [← e]
  exact hb raw hraw

theorem delivered_fitLines (h : String) (L M H R D C : List String) :
    delivered (fitLines h L M H R D C) =
      fitLines (dropCR h) (delivered L) (delivered M) (delivered H) (delivered R)
        (delivered D) (delivered C) := by
  simp only [fitLines, throughDrones, throughRigs, throughHigh, throughMid, throughLow,
    delivered, List.map_cons, List.map_append, List.map_nil]
  rfl

theorem blocks_of_fitLines (h : String) (L M H R D C : List String)
    (hL : ∀ l ∈ L, dropCR l ≠ "") (hM : ∀ l ∈ M, dropCR l ≠ "")
    (hH : ∀ l ∈ H, dropCR l ≠ "") (hR : ∀ l ∈ R, dropCR l ≠ "")
    (hD : ∀ l ∈ D, dropCR l ≠ "") (hC : ∀ l ∈ C, dropCR l ≠ "") :
    droneBlock (delivered (fitLines h L M H R D C)) = delivered D ∧
    cargoBlock (delivered (fitLines h L M H R D C)) = delivered C := by
  have hL2 := delivered_ne_blank L hL
  have hM2 := delivered_ne_blank M hM
  have hH2 := delivered_ne_blank H hH
  have hR2 := delivered_ne_blank R hR
  have hD2 := delivered_ne_blank D hD
  have hC2 := delivered_ne_blank C hC
  rw [delivered_fitLines]
  have e : afterRigs (fitLines (dropCR h) (delivered L) (delivered M) (delivered H)
      (delivered R) (delivered D) (delivered C))
      = "" :: "" :: (delivered D ++ "" :: (delivered C ++ [""])) := by
    simp only [afterRigs, fitLines, throughDrones, throughRigs, throughHigh, throughMid,
      throughLow, List.drop_succ_cons, List.drop_zero, afterSection_block _ _ hL2,
      afterSection_block _ _ hM2, afterSection_block _ _ hH2, afterSection_block _ _ hR2]
  constructor
  · simp only [droneBlock, e, List.drop_succ_cons, List.drop_zero,
      sectionLines_block _ _ hD2]
  · simp only [cargoBlock, e, List.drop_succ_cons, List.drop_zero,
      afterSection_block _ _ hD2, sectionLines_block _ _ hC2]

theorem longLine_too_long : maxScanTokenSize ≤ longLine.utf8ByteSize := by
  unfold longLine
  rw [utf8ByteSize_replicate]
  decide

theorem longLine_ne_blank : longLine ≠ "" := by
  intro h
  have e : longLine.utf8ByteSize = 0 := by rw [h]; rfl
  have h2 := longLine_too_long
  rw [e] at h2
  exact absurd h2 (by decide)

/-! ## The parser: claims C11 to C15 -/

/-- C11, counterexample: a valid header, a low-slot block holding one
non-empty line of 65536 bytes, and every section terminated by an empty line.
The scanner refuses the long line, so `readInFit` prints the low-slot error
and exits instead of succeeding. -/
theorem long_low_slot_line_not_parsed :
    longLine ≠ "" ∧
    parseShipTypeAndName "[Raven, My Raven]" = .ok ("Raven", "My Raven") ∧
    readInFit (fitLines "[Raven, My Raven]" [longLine] [] [] [] [] [])
      = .error ["ERROR myReadLine false", "Error Reading Low Slots"] ∧
    ¬ ∃ s, readInFit (fitLines "[Raven, My Raven]" [longLine] [] [] [] [] []) = .ok s := by
  have e : readInFit (fitLines "[Raven, My Raven]" [longLine] [] [] [] [] [])
      = .error ["ERROR myReadLine false", "Error Reading Low Slots"] :=
    readInFit_low_too_long "[Raven, My Raven]" "Raven" "My Raven" [] longLine _
      (by decide) rfl (by simp) longLine_too_long
  refine ⟨longLine_ne_blank, rfl, e, ?_⟩
  rintro ⟨s, hs⟩
  rw [e] at hs
  exact Except.noConfusion hs

/-- C11, amended: equipped-slot sections count whole lines.  On a well-formed
input of fewer than 2^63 lines (a header of fewer than 65536 bytes that
parses, four blocks of item lines, each line non-empty and of fewer than
65536 bytes, each block followed by an empty line, two empty lines, a drone
block and a cargo block of such lines each followed by an empty line)
`readInFit` succeeds with the type and name of the header, and each of the
four equipped maps has exactly the distinct lines of its block as keys, each
mapped to the number of lines of the block equal to it; the drone and cargo
maps accumulate their blocks.  The lines are taken as the scanner delivers
them, without a trailing carriage return. -/
theorem equipped_sections_count_lines (h t n : String) (L M H R D C : List String)
    (hh0 : scannable h) (hh : parseShipTypeAndName (dropCR h) = .ok (t, n))
    (hL : ∀ l ∈ L, itemLine l) (hM : ∀ l ∈ M, itemLine l) (hH : ∀ l ∈ H, itemLine l)
    (hR : ∀ l ∈ R, itemLine l) (hD : ∀ l ∈ D, itemLine l) (hC : ∀ l ∈ C, itemLine l)
    (hlen : ((fitLines h L M H R D C).length : Int) ≤ maxInt) :
    ∃ s, readInFit (fitLines h L M H R D C) = .ok s ∧
      s.shipType = t ∧ s.shipName = n ∧
      countsLines s.lowSlots (delivered L) ∧ countsLines s.midSlots (delivered M) ∧
      countsLines s.highSlots (delivered H) ∧ countsLines s.rigs (delivered R) ∧
      s.drones = accumulate (cargoItems (delivered D)) [] ∧
      s.cargo = accumulate (cargoItems (delivered C)) [] := by
  have hlen2 : (fitLines h L M H R D C).length =
      L.length + M.length + H.length + R.length + D.length + C.length + 9 := by
    simp only [fitLines, throughDrones, throughRigs, throughHigh, throughMid, throughLow,
      List.length_cons, List.length_append, List.length_nil]
    omega
  rw [hlen2] at hlen
  push_cast at hlen
  have h1 : (0 : Int) ≤ L.length := Int.natCast_nonneg _
  have h2 : (0 : Int) ≤ M.length := Int.natCast_nonneg _
  have h3 : (0 : Int) ≤ H.length := Int.natCast_nonneg _
  have h4 : (0 : Int) ≤ R.length := Int.natCast_nonneg _
  have h5 : (0 : Int) ≤ D.length := Int.natCast_nonneg _
  have h6 : (0 : Int) ≤ C.length := Int.natCast_nonneg _
  exact ⟨_, readInFit_fitLines h t n L M H R D C hh0 hh hL hM hH hR hD hC, rfl, rfl,
    slots_countsLines (delivered L) (by rw [delivered_length]; omega),
    slots_countsLines (delivered M) (by rw [delivered_length]; omega),
    slots_countsLines (delivered H) (by rw [delivered_length]; omega),
    slots_countsLines (delivered R) (by rw [delivered_length]; omega), rfl, rfl⟩

/-- Witness of the amended C11: a low-slot line "Foo x5" is counted whole, and
a header followed by eight empty lines gives six empty maps. -/
theorem equipped_sections_count_lines_witness :
    (∃ s, readInFit (fitLines "[Raven, My Raven]" ["Foo x5"] [] [] [] [] []) = .ok s ∧
      s.shipType = "Raven" ∧ s.shipName = "My Raven" ∧
      countsLines s.lowSlots (delivered ["Foo x5"]) ∧ countsLines s.midSlots (delivered []) ∧
      countsLines s.highSlots (delivered []) ∧ countsLines s.rigs (delivered []) ∧
      s.drones = accumulate (cargoItems (delivered [])) [] ∧
      s.cargo = accumulate (cargoItems (delivered [])) []) ∧
    (∃ s, readInFit (fitLines "[Raven, My Raven]" [] [] [] [] [] []) = .ok s ∧
      s.shipType = "Raven" ∧ s.shipName = "My Raven" ∧
      countsLines s.lowSlots (delivered []) ∧ countsLines s.midSlots (delivered []) ∧
      countsLines s.highSlots (delivered []) ∧ countsLines s.rigs (delivered []) ∧
      s.drones = accumulate (cargoItems (delivered [])) [] ∧
      s.cargo = accumulate (cargoItems (delivered [])) []) ∧
    delivered ["Foo x5"] = ["Foo x5"] :=
  ⟨equipped_sections_count_lines "[Raven, My Raven]" "Raven" "My Raven" ["Foo x5"] [] [] []
      [] [] (by decide) rfl (by decide) (by decide) (by decide) (by decide) (by decide)
      (by decide) (by decide),
   equipped_sections_count_lines "[Raven, My Raven]" "Raven" "My Raven" [] [] [] []
      [] [] (by decide) rfl (by decide) (by decide) (by decide) (by decide) (by decide)
      (by decide) (by decide),
   rfl⟩

/-- C12: drone and cargo lines accumulate additively.  On every input that
`readInFit` parses and whose drone amounts and cargo amounts each sum to at
most the largest machine int, the drone map has exactly the names parsed from
the drone block as keys, each mapped to the sum of the amounts of the lines
that parse to it, and likewise the cargo map for the cargo block; on a
well-formed input the two blocks are the drone lines and the cargo lines.
The lines are taken as the scanner delivers them. -/
theorem carried_sections_accumulate :
    (∀ (lines : List String) (s : ship), readInFit lines = .ok s →
      ((droneBlock (delivered lines)).map (fun l => (parseCargoItem l).amount)).sum
        ≤ maxInt →
      ((cargoBlock (delivered lines)).map (fun l => (parseCargoItem l).amount)).sum
        ≤ maxInt →
      sumsAmounts s.drones (droneBlock (delivered lines)) ∧
      sumsAmounts s.cargo (cargoBlock (delivered lines))) ∧
    (∀ (h : String) (L M H R D C : List String),
      (∀ l ∈ L, dropCR l ≠ "") → (∀ l ∈ M, dropCR l ≠ "") → (∀ l ∈ H, dropCR l ≠ "") →
      (∀ l ∈ R, dropCR l ≠ "") → (∀ l ∈ D, dropCR l ≠ "") → (∀ l ∈ C, dropCR l ≠ "") →
      droneBlock (delivered (fitLines h L M H R D C)) = delivered D ∧
      cargoBlock (delivered (fitLines h L M H R D C)) = delivered C) := by
  constructor
  · intro lines s h hD hC
    obtain ⟨_, _, _, _, e5, e6⟩ := readInFit_ok_maps lines s h
    rw [e5, e6]
    exact ⟨cargo_sumsAmounts _ hD, cargo_sumsAmounts _ hC⟩
  · intro h L M H R D C hL hM hH hR hD hC
    exact blocks_of_fitLines h L M H R D C hL hM hH hR hD hC

/-- Witness of C12: the drone lines "Hobgoblin I x5" and "Hobgoblin I x3" give
the single entry "Hobgoblin I" with 8. -/
theorem carried_sections_accumulate_witness :
    (sumsAmounts [("Hobgoblin I", 8)]
        (droneBlock (delivered (fitLines "[Raven, My Raven]" [] [] [] []
          ["Hobgoblin I x5", "Hobgoblin I x3"] ["Phased Plasma M x1600"]))) ∧
      sumsAmounts [("Phased Plasma M", 1600)]
        (cargoBlock (delivered (fitLines "[Raven, My Raven]" [] [] [] []
          ["Hobgoblin I x5", "Hobgoblin I x3"] ["Phased Plasma M x1600"])))) ∧
    (droneBlock (delivered (fitLines "[Raven, My Raven]" [] [] [] []
        ["Hobgoblin I x5", "Hobgoblin I x3"] ["Phased Plasma M x1600"]))
        = delivered ["Hobgoblin I x5", "Hobgoblin I x3"] ∧
      cargoBlock (delivered (fitLines "[Raven, My Raven]" [] [] [] []
        ["Hobgoblin I x5", "Hobgoblin I x3"] ["Phased Plasma M x1600"]))
        = delivered ["Phased Plasma M x1600"]) :=
  ⟨carried_sections_accumulate.1
      (fitLines "[Raven, My Raven]" [] [] [] []
        ["Hobgoblin I x5", "Hobgoblin I x3"] ["Phased Plasma M x1600"])
      ⟨"My Raven", "Raven", [], [], [], [], [("Hobgoblin I", 8)],
        [("Phased Plasma M", 1600)]⟩ rfl (by decide) (by decide),
   carried_sections_accumulate.2 "[Raven, My Raven]" [] [] [] []
      ["Hobgoblin I x5", "Hobgoblin I x3"] ["Phased Plasma M x1600"]
      (by decide) (by decide) (by decide) (by decide) (by decide) (by decide)⟩

/-- C13, counterexample: a fit that is well-formed through the drone section
and ends right after the cargo line "Phased Plasma M x1600" is not parsed:
`readInFit` prints the cargo error and exits. -/
theorem cargo_eof_not_accepted :
    readInFit ["[Raven, My Raven]", "", "", "", "", "", "", "Hobgoblin I x5", "",
        "Phased Plasma M x1600"]
      = .error ["ERROR myReadLine false", "Error Reading Cargo"] ∧
    ¬ ∃ s, readInFit ["[Raven, My Raven]", "", "", "", "", "", "", "Hobgoblin I x5", "",
        "Phased Plasma M x1600"] = .ok s := by
  refine ⟨rfl, ?_⟩
  rintro ⟨s, hs⟩
  have e : readInFit ["[Raven, My Raven]", "", "", "", "", "", "", "Hobgoblin I x5", "",
      "Phased Plasma M x1600"]
      = .error ["ERROR myReadLine false", "Error Reading Cargo"] := rfl
  rw [e] at hs
  exact Except.noConfusion hs

/-- C13, amended: the cargo section must be terminated by an empty line.  On
an input that is well-formed through the drone section's terminating empty
line (header and item lines of fewer than 65536 bytes) and then holds zero or
more non-empty cargo lines, `readInFit` fails with the cargo error when the
input ends there; when the cargo lines have fewer than 65536 bytes each and an
empty line follows them, it succeeds with the cargo map that accumulates
them. -/
theorem cargo_needs_terminator (h t n : String) (L M H R D C : List String)
    (hh0 : scannable h) (hh : parseShipTypeAndName (dropCR h) = .ok (t, n))
    (hL : ∀ l ∈ L, itemLine l) (hM : ∀ l ∈ M, itemLine l) (hH : ∀ l ∈ H, itemLine l)
    (hR : ∀ l ∈ R, itemLine l) (hD : ∀ l ∈ D, itemLine l) (hC : ∀ l ∈ C, dropCR l ≠ "") :
    readInFit (throughDrones h L M H R D C)
      = .error ["ERROR myReadLine false", "Error Reading Cargo"] ∧
    ((∀ l ∈ C, scannable l) →
      ∃ s, readInFit (throughDrones h L M H R D (C ++ [""])) = .ok s ∧
        s.cargo = accumulate (cargoItems (delivered C)) []) :=
  ⟨readInFit_eof_cargo h t n L M H R D C hh0 hh hL hM hH hR hD hC,
   fun hC2 => ⟨_, readInFit_fitLines h t n L M H R D C hh0 hh hL hM hH hR hD
      (itemLine_of C hC hC2), rfl⟩⟩

/-- Witness of the amended C13: one cargo line, with and without the empty
line after it. -/
theorem cargo_needs_terminator_witness :
    readInFit (throughDrones "[Raven, My Raven]" [] [] [] [] ["Hobgoblin I x5"]
        ["Phased Plasma M x1600"])
      = .error ["ERROR myReadLine false", "Error Reading Cargo"] ∧
    ∃ s, readInFit (throughDrones "[Raven, My Raven]" [] [] [] [] ["Hobgoblin I x5"]
        (["Phased Plasma M x1600"] ++ [""])) = .ok s ∧
      s.cargo = accumulate (cargoItems (delivered ["Phased Plasma M x1600"])) [] :=
  have w := cargo_needs_terminator "[Raven, My Raven]" "Raven" "My Raven" [] [] [] []
    ["Hobgoblin I x5"] ["Phased Plasma M x1600"] (by decide) rfl (by decide) (by decide)
    (by decide) (by decide) (by decide) (by decide)
  ⟨w.1, w.2 (by decide)⟩

/-- C14: end of input inside a section is a fatal error that names the
section.  For a header that parses and blocks of non-empty lines, an input
that ends inside the low-slot, mid-slot, high-slot, rig or drone section
(before its terminating empty line) makes `readInFit` fail, and the lines
printed before the exit end with the error of that section.  The header and
the lines of the sections before that one have fewer than 65536 bytes, so
that the scanner reads as far as that section. -/
theorem eof_in_section_is_fatal (h t n : String) (L M H R D : List String)
    (hh0 : scannable h) (hh : parseShipTypeAndName (dropCR h) = .ok (t, n))
    (hL : ∀ l ∈ L, dropCR l ≠ "") (hM : ∀ l ∈ M, dropCR l ≠ "")
    (hH : ∀ l ∈ H, dropCR l ≠ "") (hR : ∀ l ∈ R, dropCR l ≠ "")
    (hD : ∀ l ∈ D, dropCR l ≠ "") :
    readInFit (h :: L) = .error ["ERROR myReadLine false", "Error Reading Low Slots"] ∧
    ((∀ l ∈ L, scannable l) →
      readInFit (throughLow h L M)
        = .error ["ERROR myReadLine false", "Error Reading Mid Slots"]) ∧
    ((∀ l ∈ L, scannable l) → (∀ l ∈ M, scannable l) →
      readInFit (throughMid h L M H)
        = .error ["ERROR myReadLine false", "Error Reading High Slots"]) ∧
    ((∀ l ∈ L, scannable l) → (∀ l ∈ M, scannable l) → (∀ l ∈ H, scannable l) →
      readInFit (throughHigh h L M H R)
        = .error ["ERROR myReadLine false", "Error Reading Rigs"]) ∧
    ((∀ l ∈ L, scannable l) → (∀ l ∈ M, scannable l) → (∀ l ∈ H, scannable l) →
      (∀ l ∈ R, scannable l) →
      readInFit (throughRigs h L M H R ("" :: "" :: D))
        = .error ["ERROR myReadLine false", "Error Reading Drones"]) :=
  ⟨readInFit_eof_low h t n L hh0 hh hL,
   fun sL => readInFit_eof_mid h t n L M hh0 hh (itemLine_of L hL sL) hM,
   fun sL sM => readInFit_eof_high h t n L M H hh0 hh (itemLine_of L hL sL)
      (itemLine_of M hM sM) hH,
   fun sL sM sH => readInFit_eof_rigs h t n L M H R hh0 hh (itemLine_of L hL sL)
      (itemLine_of M hM sM) (itemLine_of H hH sH) hR,
   fun sL sM sH sR => readInFit_eof_drones h t n L M H R D hh0 hh (itemLine_of L hL sL)
      (itemLine_of M hM sM) (itemLine_of H hH sH) (itemLine_of R hR sR) hD⟩

/-- Witness of C14: a fit that ends in the middle of the rig section fails
with the error for the rigs. -/
theorem eof_in_section_is_fatal_witness :
    readInFit (throughHigh "[Raven, My Raven]" ["Damage Control II"] ["Shield Extender"]
        ["Cruise Launcher", "Cruise Launcher"] ["Rig A"])
      = .error ["ERROR myReadLine false", "Error Reading Rigs"] :=
  (eof_in_section_is_fatal "[Raven, My Raven]" "Raven" "My Raven" ["Damage Control II"]
    ["Shield Extender"] ["Cruise Launcher", "Cruise Launcher"] ["Rig A"] ["Hobgoblin I x5"]
    (by decide) rfl (by decide) (by decide) (by decide) (by decide) (by decide)).2.2.2.1
    (by decide) (by decide) (by decide)

/-- C15: the double-blank separator is mandatory.  On an input that is
well-formed through the rig section's terminating empty line, `readInFit`
fails in the separator loop, printing "Error Reading Drones", whenever the
next two lines are not both present and empty (as the scanner delivers them);
so a parse that succeeds had two empty lines there, and with them a
well-formed rest is parsed.  Header and item lines have fewer than 65536
bytes. -/
theorem separator_is_mandatory (h t n : String) (L M H R tail : List String)
    (hh0 : scannable h) (hh : parseShipTypeAndName (dropCR h) = .ok (t, n))
    (hL : ∀ l ∈ L, itemLine l) (hM : ∀ l ∈ M, itemLine l) (hH : ∀ l ∈ H, itemLine l)
    (hR : ∀ l ∈ R, itemLine l) :
    ((¬ ∃ a b rest, tail = a :: b :: rest ∧ dropCR a = "" ∧ dropCR b = "") →
      ∃ printed, readInFit (throughRigs h L M H R tail) = .error printed ∧
        readBlankLines 2 tail = .error printed ∧ "Error Reading Drones" ∈ printed) ∧
    (∀ s, readInFit (throughRigs h L M H R tail) = .ok s →
      ∃ a b rest, tail = a :: b :: rest ∧ dropCR a = "" ∧ dropCR b = "") ∧
    (∀ D C : List String, (∀ l ∈ D, itemLine l) → (∀ l ∈ C, itemLine l) →
      ∃ s, readInFit (throughRigs h L M H R ("" :: "" :: (D ++ "" :: (C ++ [""])))) = .ok s) := by
  have key : (¬ ∃ a b rest, tail = a :: b :: rest ∧ dropCR a = "" ∧ dropCR b = "") →
      ∃ printed, readInFit (throughRigs h L M H R tail) = .error printed ∧
        readBlankLines 2 tail = .error printed ∧ "Error Reading Drones" ∈ printed := by
    intro hno
    rcases readBlankLines_two tail with ⟨a, b, rest, hr, ha, hb, _⟩ | ⟨_, hb | hb⟩
    · exact absurd ⟨a, b, rest, hr, ha, hb⟩ hno
    · exact ⟨_, readInFit_separator h t n L M H R tail hh0 hh hL hM hH hR _ hb, hb,
        by simp⟩
    · exact ⟨_, readInFit_separator h t n L M H R tail hh0 hh hL hM hH hR _ hb, hb,
        by simp⟩
  refine ⟨key, ?_, ?_⟩
  · intro s hs
    by_contra hno
    obtain ⟨printed, he, _⟩ := key hno
    rw [he] at hs
    exact Except.noConfusion hs
  · intro D C hD hC
    exact ⟨_, readInFit_fitLines h t n L M H R D C hh0 hh hL hM hH hR hD hC⟩

/-- Witness of C15: a non-empty first separator line, a non-empty second one
and a missing second one all make the parse fail, and two empty lines let it
go on. -/
theorem separator_is_mandatory_witness :
    (∃ printed, readInFit (throughRigs "[Raven, My Raven]" [] [] [] [] ["Hobgoblin I x5"])
        = .error printed ∧
      readBlankLines 2 ["Hobgoblin I x5"] = .error printed ∧
      "Error Reading Drones" ∈ printed) ∧
    (∃ printed, readInFit (throughRigs "[Raven, My Raven]" [] [] [] [] ["", "Hobgoblin I x5"])
        = .error printed ∧
      readBlankLines 2 ["", "Hobgoblin I x5"] = .error printed ∧
      "Error Reading Drones" ∈ printed) ∧
    (∃ printed, readInFit (throughRigs "[Raven, My Raven]" [] [] [] [] [""])
        = .error printed ∧
      readBlankLines 2 [""] = .error printed ∧ "Error Reading Drones" ∈ printed) ∧
    (∃ s, readInFit (throughRigs "[Raven, My Raven]" [] [] [] []
        ("" :: "" :: (["Hobgoblin I x5"] ++ "" :: ([] ++ [""])))) = .ok s) :=
  ⟨(separator_is_mandatory "[Raven, My Raven]" "Raven" "My Raven" [] [] [] []
      ["Hobgoblin I x5"] (by decide) rfl (by decide) (by decide) (by decide) (by decide)).1
      (by rintro ⟨a, b, rest, hr, _, _⟩
          exact List.noConfusion (List.cons.inj hr).2),
   (separator_is_mandatory "[Raven, My Raven]" "Raven" "My Raven" [] [] [] []
      ["", "Hobgoblin I x5"] (by decide) rfl (by decide) (by decide) (by decide)
      (by decide)).1
      (by rintro ⟨a, b, rest, hr, _, hb⟩
          rw [← (List.cons.inj (List.cons.inj hr).2).1] at hb
          exact absurd hb (by decide)),
   (separator_is_mandatory "[Raven, My Raven]" "Raven" "My Raven" [] [] [] []
      [""] (by decide) rfl (by decide) (by decide) (by decide) (by decide)).1
      (by rintro ⟨a, b, rest, hr, _, _⟩
          exact List.noConfusion (List.cons.inj hr).2),
   (separator_is_mandatory "[Raven, My Raven]" "Raven" "My Raven" [] [] [] []
      [] (by decide) rfl (by decide) (by decide) (by decide) (by decide)).2.2
      ["Hobgoblin I x5"] [] (by decide) (by decide)⟩

/-! ## The command line: claim C19 -/

/-- C19: in default mode (no argument lower-cases to a flag) with the program
name and exactly one fit file path, `main` prints only the banner and then
indexes `os.Args[2]` out of range: no diagnostic, no exit status 1.  With the
program name alone it prints the missing-arguments diagnostic and exits with
status 1. -/
theorem one_file_argument_indexes_out_of_range (lower : String → String)
    (files : String → Option (List String)) (prog f : String)
    (h1 : lower prog ≠ "--version") (h2 : lower prog ≠ "--justparse")
    (h3 : lower f ≠ "--version") (h4 : lower f ≠ "--justparse") :
    main lower files [prog, f] =
      { out := [Printed.text "Eve Compare Fits: Version 0.1.0", Printed.text ""],
        ending := Ending.indexOutOfRange } ∧
    main lower files [prog] =
      { out := [Printed.text "Eve Compare Fits: Version 0.1.0", Printed.text "",
          Printed.text "Please provide 2 Fit files for comparison."],
        ending := Ending.exit 1 } := by
  have hv : ("Eve Compare Fits: Version " ++ version) = "Eve Compare Fits: Version 0.1.0" := by
    decide
  constructor
  · simp [main, h1, h2, h3, h4, hv]
  · simp [main, h1, h2, hv]

/-- Witness of C19: the program called with the single file path "a.fit". -/
theorem one_file_argument_indexes_out_of_range_witness :
    main asciiLower (fun _ => none) ["EveCompareFits", "a.fit"] =
      { out := [Printed.text "Eve Compare Fits: Version 0.1.0", Printed.text ""],
        ending := Ending.indexOutOfRange } ∧
    main asciiLower (fun _ => none) ["EveCompareFits"] =
      { out := [Printed.text "Eve Compare Fits: Version 0.1.0", Printed.text "",
          Printed.text "Please provide 2 Fit files for comparison."],
        ending := Ending.exit 1 } :=
  one_file_argument_indexes_out_of_range asciiLower (fun _ => none) "EveCompareFits" "a.fit"
    (by decide) (by decide) (by decide) (by decide)

end EveCompareFits
